import Mathlib

/-
Verification of the terminal line-input library (Nerdmaster/terminal).

Shallow embedding of the Go sources:
  - bytes_to_key.go : ParseKey / keyUnknown (key parser, modifier handling)
  - line.go         : Line buffer and its edit operations
  - scroller.go     : Scroller.Filter
  - reader.go       : bytesToKey, handleKey, ReadLine, ReadPassword,
                      stRingBuffer (history ring)

Bytes are modelled as List Nat (each element a Go byte, < 256); runes as Nat
(Go rune values occurring here are non-negative); Go int fields that can be
negative (cursor position, scroll offsets, history index) are modelled as Int.
Go functions from the standard library unicode/utf8 package (FullRune,
DecodeRune) are embedded following the Go implementation.
-/

set_option maxRecDepth 10000

namespace Terminal

/-! ## Key constants

KeyModifier values are from keys.go; the named key constants KeyUnknown..KeyPgDn
follow the iota layout of the keys constant block (KeyCtrlA = 1, ..., KeyEscape
= 27, KeyUnknown = 0xd800 + 29, continuing by one).  -/

def ModNone : Nat := 0
def ModAlt : Nat := 1
def ModMeta : Nat := 2

def KeyEscape : Nat := 27
def KeyEnter : Nat := 13
def KeyBackspace : Nat := 127
def KeyUnknown : Nat := 0xd800 + 29
def KeyUp : Nat := 0xd800 + 30
def KeyDown : Nat := 0xd800 + 31
def KeyLeft : Nat := 0xd800 + 32
def KeyRight : Nat := 0xd800 + 33
def KeyHome : Nat := 0xd800 + 34
def KeyEnd : Nat := 0xd800 + 35
def KeyPasteStart : Nat := 0xd800 + 36
def KeyPasteEnd : Nat := 0xd800 + 37
def KeyInsert : Nat := 0xd800 + 38
def KeyDelete : Nat := 0xd800 + 39
def KeyPgUp : Nat := 0xd800 + 40
def KeyPgDn : Nat := 0xd800 + 41

/-- Modelled from the spec: the constants KeyPause and KeyF1..KeyF12 are used by
bytes_to_key.go but their defining constant block is not among the provided
sources; per spec section 3 the named keys live in a reserved range starting at
0xD800, so they continue the iota layout after KeyPgDn. -/
def KeyPause : Nat := 0xd800 + 42

/-- Modelled from the spec: see KeyPause. -/
def KeyF1 : Nat := 0xd800 + 43

/-- Modelled from the spec: see KeyPause. -/
def KeyF2 : Nat := 0xd800 + 44

/-- Modelled from the spec: see KeyPause. -/
def KeyF3 : Nat := 0xd800 + 45

/-- Modelled from the spec: see KeyPause. -/
def KeyF4 : Nat := 0xd800 + 46

/-- Modelled from the spec: see KeyPause. -/
def KeyF5 : Nat := 0xd800 + 47

/-- Modelled from the spec: see KeyPause. -/
def KeyF6 : Nat := 0xd800 + 48

/-- Modelled from the spec: see KeyPause. -/
def KeyF7 : Nat := 0xd800 + 49

/-- Modelled from the spec: see KeyPause. -/
def KeyF8 : Nat := 0xd800 + 50

/-- Modelled from the spec: see KeyPause. -/
def KeyF9 : Nat := 0xd800 + 51

/-- Modelled from the spec: see KeyPause. -/
def KeyF10 : Nat := 0xd800 + 52

/-- Modelled from the spec: see KeyPause. -/
def KeyF11 : Nat := 0xd800 + 53

/-- Modelled from the spec: see KeyPause. -/
def KeyF12 : Nat := 0xd800 + 54

/-- Modelled from the spec: the KeyLeftBracket constant is used by
bytes_to_key.go but not defined in the provided sources; spec section 3 lists
LeftBracket among the named keys.  Its exact value is irrelevant to the claims;
the rune value of the left-bracket character is used. -/
def KeyLeftBracket : Nat := 0x5b

/-- Go utf8.RuneError, the replacement character U+FFFD. -/
def runeError : Nat := 0xfffd

/-- pasteStart from keys.go: ESC [ 2 0 0 ~ -/
def pasteStart : List Nat := [27, 0x5b, 0x32, 0x30, 0x30, 0x7e]

/-- pasteEnd from keys.go: ESC [ 2 0 1 ~ -/
def pasteEnd : List Nat := [27, 0x5b, 0x32, 0x30, 0x31, 0x7e]

/-! ## Go unicode/utf8 (FullRune, DecodeRune)

Embedded from the Go standard library implementation (first-byte table `first`,
`acceptRanges`, masks).  `firstSize` is x&7 of the `first` table entry (1 for
ASCII and for invalid first bytes), `acceptLo`/`acceptHi` are the continuation
ranges for the first byte. -/

def firstSize (b : Nat) : Nat :=
  if b < 0xc2 then 1
  else if b < 0xe0 then 2
  else if b < 0xf0 then 3
  else if b < 0xf5 then 4
  else 1

def acceptLo (b : Nat) : Nat :=
  if b = 0xe0 then 0xa0
  else if b = 0xed then 0x80
  else if b = 0xf0 then 0x90
  else 0x80

def acceptHi (b : Nat) : Nat :=
  if b = 0xed then 0x9f
  else if b = 0xf4 then 0x8f
  else 0xbf

/-- Go utf8.FullRune: whether p begins with a full UTF-8 encoding of a rune (an
invalid prefix counts as full, since DecodeRune consumes it as a 1-byte error). -/
def fullRune : List Nat → Bool
  | [] => false
  | b0 :: rest =>
    if rest.length + 1 ≥ firstSize b0 then true
    else
      match rest with
      | [] => false
      | b1 :: rest2 =>
        if b1 < acceptLo b0 ∨ acceptHi b0 < b1 then true
        else
          match rest2 with
          | [] => false
          | b2 :: _ => decide (b2 < 0x80 ∨ 0xbf < b2)

/-- Go utf8.DecodeRune: returns (rune, size).  Returns (RuneError, 0) on empty
input and (RuneError, 1) on an invalid or truncated encoding, exactly as the Go
implementation (which checks the length before the continuation bytes; the
results agree with this nested form on every input). -/
def decodeRune : List Nat → Nat × Nat
  | [] => (runeError, 0)
  | b0 :: rest =>
    if b0 < 0x80 then (b0, 1)
    else if b0 < 0xc2 then (runeError, 1)
    else if b0 < 0xe0 then
      match rest with
      | b1 :: _ =>
        if 0x80 ≤ b1 ∧ b1 ≤ 0xbf then ((b0 % 0x20) * 0x40 + b1 % 0x40, 2)
        else (runeError, 1)
      | [] => (runeError, 1)
    else if b0 < 0xf0 then
      match rest with
      | b1 :: b2 :: _ =>
        if acceptLo b0 ≤ b1 ∧ b1 ≤ acceptHi b0 then
          if 0x80 ≤ b2 ∧ b2 ≤ 0xbf then
            ((b0 % 0x10) * 0x1000 + (b1 % 0x40) * 0x40 + b2 % 0x40, 3)
          else (runeError, 1)
        else (runeError, 1)
      | _ => (runeError, 1)
    else if b0 < 0xf5 then
      match rest with
      | b1 :: b2 :: b3 :: _ =>
        if acceptLo b0 ≤ b1 ∧ b1 ≤ acceptHi b0 then
          if 0x80 ≤ b2 ∧ b2 ≤ 0xbf then
            if 0x80 ≤ b3 ∧ b3 ≤ 0xbf then
              ((b0 % 8) * 0x40000 + (b1 % 0x40) * 0x1000 + (b2 % 0x40) * 0x40 + b3 % 0x40, 4)
            else (runeError, 1)
          else (runeError, 1)
        else (runeError, 1)
      | _ => (runeError, 1)
    else (runeError, 1)

/-! ## Line buffer (line.go)

Text holds runes; Pos is the Go int cursor.  The Go slice manipulations
(capacity growth, overlapping copy) net to the take/append/drop forms used
here whenever 0 ≤ Pos ≤ len(Text), which is the domain of every claim. -/

structure Line where
  Text : List Nat
  Pos : Int
deriving DecidableEq, Repr

/-- Set from line.go: overwrite Text and Pos. -/
def Line.Set (_l : Line) (t : List Nat) (p : Int) : Line := ⟨t, p⟩

/-- Clear from line.go: erase the input line. -/
def Line.Clear (_l : Line) : Line := ⟨[], 0⟩

/-- AddKeyToLine from line.go: insert key at Pos, advance Pos. -/
def Line.AddKeyToLine (l : Line) (key : Nat) : Line :=
  ⟨l.Text.take l.Pos.toNat ++ key :: l.Text.drop l.Pos.toNat, l.Pos + 1⟩

/-- EraseNPreviousChars from line.go: delete up to n runes before Pos
(n clamped to Pos), shifting the tail left. -/
def Line.EraseNPreviousChars (l : Line) (n : Int) : Line :=
  if l.Pos = 0 ∨ n = 0 then l
  else
    let m := if l.Pos < n then l.Pos else n
    let p := l.Pos - m
    ⟨l.Text.take p.toNat ++ l.Text.drop (p + m).toNat, p⟩

/-- DeleteLine from line.go: remove all runes at and after Pos. -/
def Line.DeleteLine (l : Line) : Line := ⟨l.Text.take l.Pos.toNat, l.Pos⟩

/-- MoveRight from line.go. -/
def Line.MoveRight (l : Line) : Line :=
  if l.Pos = (l.Text.length : Int) then l else ⟨l.Text, l.Pos + 1⟩

/-- MoveLeft from line.go. -/
def Line.MoveLeft (l : Line) : Line :=
  if l.Pos = 0 then l else ⟨l.Text, l.Pos - 1⟩

/-- MoveHome from line.go. -/
def Line.MoveHome (l : Line) : Line := ⟨l.Text, 0⟩

/-- MoveEnd from line.go. -/
def Line.MoveEnd (l : Line) : Line := ⟨l.Text, (l.Text.length : Int)⟩

/-- DeleteRuneUnderCursor from line.go: if Pos < len, advance then erase one. -/
def Line.DeleteRuneUnderCursor (l : Line) : Line :=
  if l.Pos < (l.Text.length : Int) then l.MoveRight.EraseNPreviousChars 1 else l

/-- DeleteToBeginningOfLine from line.go. -/
def Line.DeleteToBeginningOfLine (l : Line) : Line :=
  l.EraseNPreviousChars l.Pos

/-- First loop of CountToLeftWord: move left past spaces (break at a
non-space or position 0). -/
def skipSpacesLeft (text : List Nat) : Nat → Nat
  | 0 => 0
  | p + 1 => if text.getD (p + 1) 0 ≠ 32 then p + 1 else skipSpacesLeft text p

/-- Second loop of CountToLeftWord: move left through the word; on hitting a
space, step back right once and stop. -/
def findLeftWordStart (text : List Nat) : Nat → Nat
  | 0 => 0
  | p + 1 => if text.getD (p + 1) 0 = 32 then (p + 1) + 1 else findLeftWordStart text p

/-- CountToLeftWord from line.go. -/
def Line.CountToLeftWord (l : Line) : Int :=
  if l.Pos = 0 then 0
  else l.Pos - (findLeftWordStart l.Text (skipSpacesLeft l.Text (l.Pos.toNat - 1)) : Int)

/-- MoveToLeftWord from line.go. -/
def Line.MoveToLeftWord (l : Line) : Line := ⟨l.Text, l.Pos - l.CountToLeftWord⟩

/-- First loop of CountToRightWord: move right through the word (break at a
space or the end).  The fuel argument only bounds the iteration count; with
fuel ≥ len(text) − pos the loop always ends by its own conditions, and every
caller passes len(text) + 1. -/
def skipWordRightF (text : List Nat) : Nat → Nat → Nat
  | 0, pos => pos
  | fuel + 1, pos =>
    if pos < text.length then
      if text.getD pos 0 = 32 then pos else skipWordRightF text fuel (pos + 1)
    else pos

def skipWordRight (text : List Nat) (pos : Nat) : Nat :=
  skipWordRightF text (text.length + 1) pos

/-- Second loop of CountToRightWord: move right past spaces (fuel as above). -/
def skipSpacesRightF (text : List Nat) : Nat → Nat → Nat
  | 0, pos => pos
  | fuel + 1, pos =>
    if pos < text.length then
      if text.getD pos 0 ≠ 32 then pos else skipSpacesRightF text fuel (pos + 1)
    else pos

def skipSpacesRight (text : List Nat) (pos : Nat) : Nat :=
  skipSpacesRightF text (text.length + 1) pos

/-- CountToRightWord from line.go. -/
def Line.CountToRightWord (l : Line) : Int :=
  (skipSpacesRight l.Text (skipWordRight l.Text l.Pos.toNat) : Int) - l.Pos

/-- MoveToRightWord from line.go. -/
def Line.MoveToRightWord (l : Line) : Line := ⟨l.Text, l.Pos + l.CountToRightWord⟩

/-- The Line buffer invariant from the spec: 0 ≤ pos ≤ len(text). -/
def LineInv (l : Line) : Prop := 0 ≤ l.Pos ∧ l.Pos ≤ (l.Text.length : Int)

instance : DecidablePred LineInv := fun l => by
  unfold LineInv; infer_instance

/-! ## Key parser (bytes_to_key.go)

ParseKey is split at the points where the Go code mutates b / rl / mod and
falls through: the SS3 block, the Meta-prefix strip, the force-mode two-byte
special cases, the Alt strip, and the CSI section.  rl accumulates the bytes
already accounted for by stripped prefixes; mod accumulates modifier bits. -/

/-- Terminator predicate of keyUnknown: a byte in a-z, A-Z or the tilde. -/
def isSeqEnd (c : Nat) : Bool :=
  decide ((0x61 ≤ c ∧ c ≤ 0x7a) ∨ (0x41 ≤ c ∧ c ≤ 0x5a) ∨ c = 0x7e)

/-- keyUnknown from bytes_to_key.go.  When the buffer exceeds 8 bytes and force
is off, it drops the first byte before any scanning; otherwise it scans for the
first terminator byte. -/
def keyUnknown (b : List Nat) (rl : Nat) (force : Bool) (mod : Nat) : Nat × Nat × Nat :=
  if b.length > 8 ∧ force = false then (runeError, 1, ModNone)
  else
    match b.findIdx? isSeqEnd with
    | some i => (KeyUnknown, rl + i + 1, mod)
    | none => if force then (runeError, rl + b.length, mod) else (runeError, 0, ModNone)

/-- Switch over the SS3 final byte: P/Q/R/S select F1..F4. -/
def ss3Final (c : Nat) : Option Nat :=
  if c = 0x50 then some KeyF1
  else if c = 0x51 then some KeyF2
  else if c = 0x52 then some KeyF3
  else if c = 0x53 then some KeyF4
  else none

/-- Switch over the third byte of a CSI sequence (bytes_to_key.go lines
139-154): A/B/C/D/H/F/P select the three-byte finals. -/
def csiFinal3 (c : Nat) : Option Nat :=
  if c = 0x41 then some KeyUp
  else if c = 0x42 then some KeyDown
  else if c = 0x43 then some KeyRight
  else if c = 0x44 then some KeyLeft
  else if c = 0x48 then some KeyHome
  else if c = 0x46 then some KeyEnd
  else if c = 0x50 then some KeyPause
  else none

/-- Switch for the four-byte ESC [ N ~ sequences. -/
def csiTilde4 (c : Nat) : Option Nat :=
  if c = 0x31 then some KeyHome
  else if c = 0x32 then some KeyInsert
  else if c = 0x33 then some KeyDelete
  else if c = 0x34 then some KeyEnd
  else if c = 0x35 then some KeyPgUp
  else if c = 0x36 then some KeyPgDn
  else none

/-- Switch for the raw-VT four-byte ESC [ [ X function keys: A..E are F1..F5. -/
def rawVTFinal (c : Nat) : Option Nat :=
  if c = 0x41 then some KeyF1
  else if c = 0x42 then some KeyF2
  else if c = 0x43 then some KeyF3
  else if c = 0x44 then some KeyF4
  else if c = 0x45 then some KeyF5
  else none

/-- Nested switch for the five-byte ESC [ N M ~ function keys
(bytes_to_key.go lines 210-243). -/
def fnKey5 (c2 c3 : Nat) : Option Nat :=
  if c2 = 0x31 then
    if c3 = 0x31 then some KeyF1
    else if c3 = 0x32 then some KeyF2
    else if c3 = 0x33 then some KeyF3
    else if c3 = 0x34 then some KeyF4
    else if c3 = 0x35 then some KeyF5
    else if c3 = 0x37 then some KeyF6
    else if c3 = 0x38 then some KeyF7
    else if c3 = 0x39 then some KeyF8
    else none
  else if c2 = 0x32 then
    if c3 = 0x30 then some KeyF9
    else if c3 = 0x31 then some KeyF10
    else if c3 = 0x33 then some KeyF11
    else if c3 = 0x34 then some KeyF12
    else none
  else none

/-- CSI section of ParseKey (bytes_to_key.go lines 110-257): the two Alt
rewrites, the three-byte finals, ESC [ N ~, raw-VT ESC [ [ X, the Meta
function-key rewrite, the five-byte function keys, and bracketed paste.
On entry b starts with ESC [ and has length at least 3. -/
def parseKeyCSI (b : List Nat) (rl : Nat) (mod : Nat) (force : Bool) : Nat × Nat × Nat :=
  -- Local-terminal Alt: ESC [ 1 ; 3 X rewritten to ESC [ X
  let s1 : List Nat × Nat × Nat :=
    if b.length ≥ 6 ∧ b.getD 2 0 = 0x31 ∧ b.getD 3 0 = 0x3b ∧ b.getD 4 0 = 0x33 then
      (0x1b :: 0x5b :: b.drop 5, rl + 3, mod ||| ModAlt)
    else (b, rl, mod)
  let b1 := s1.1
  -- ...and ESC [ N ; 3 ~ rewritten to ESC [ N ~
  let s2 : List Nat × Nat × Nat :=
    if b1.length ≥ 6 ∧ b1.getD 3 0 = 0x3b ∧ b1.getD 4 0 = 0x33 ∧ b1.getD 5 0 = 0x7e then
      (0x1b :: 0x5b :: b1.getD 2 0 :: b1.drop 5, s1.2.1 + 2, s1.2.2 ||| ModAlt)
    else s1
  let b2 := s2.1
  let rl2 := s2.2.1
  let mod2 := s2.2.2
  if b2.length < 3 then keyUnknown b2 rl2 force mod2
  else
    match csiFinal3 (b2.getD 2 0) with
    | some k => (k, rl2 + 3, mod2)
    | none =>
      if b2.length < 4 then keyUnknown b2 rl2 force mod2
      else
        match (if b2.getD 3 0 = 0x7e then csiTilde4 (b2.getD 2 0) else none) with
        | some k => (k, rl2 + 4, mod2)
        | none =>
          match (if b2.getD 2 0 = 0x5b then rawVTFinal (b2.getD 3 0) else none) with
          | some k => (k, rl2 + 4, mod2)
          | none =>
            if b2.length < 5 then keyUnknown b2 rl2 force mod2
            else
              -- Meta + function keys: ESC [ N M ; 1 ~ rewritten to ESC [ N M ~
              let s3 : List Nat × Nat × Nat :=
                if b2.length > 6 ∧ b2.getD 4 0 = 0x3b ∧ b2.getD 5 0 = 0x31 ∧ b2.getD 6 0 = 0x7e then
                  (b2.take 4 ++ b2.drop 6, rl2 + 2, mod2 ||| ModMeta)
                else (b2, rl2, mod2)
              let b3 := s3.1
              let rl3 := s3.2.1
              let mod3 := s3.2.2
              match (if b3.getD 4 0 = 0x7e then fnKey5 (b3.getD 2 0) (b3.getD 3 0) else none) with
              | some k => (k, rl3 + 5, mod3)
              | none =>
                if b3.length < 6 then keyUnknown b3 rl3 force mod3
                else if b3.take 6 = pasteEnd then (KeyPasteEnd, rl3 + 6, mod3)
                else if b3.take 6 = pasteStart then (KeyPasteStart, rl3 + 6, mod3)
                else keyUnknown b3 rl3 force mod3

/-- Core of ParseKey from the ctrl-key check onward (bytes_to_key.go lines
73-113), after any SS3 / Meta / Alt prefixes have been stripped into rl and
mod.  b is non-empty whenever this is reached from ParseKey. -/
def parseKeyCore (b : List Nat) (rl : Nat) (mod : Nat) (force : Bool) : Nat × Nat × Nat :=
  let b0 := b.getD 0 0
  if b0 < KeyEscape then (b0, rl + 1, mod)
  else if b0 ≠ KeyEscape then
    if fullRune b = false then
      if force then (runeError, rl + b.length, mod) else (runeError, rl, mod)
    else
      ((decodeRune b).1, rl + (decodeRune b).2, mod)
  else if b.length = 1 then
    if force then (KeyEscape, rl + 1, mod) else keyUnknown b rl force mod
  else if b.length < 3 then
    if force then (runeError, rl + b.length, mod) else keyUnknown b rl force mod
  else if b.getD 1 0 ≠ 0x5b then keyUnknown b rl force mod
  else parseKeyCSI b rl mod force

/-- Alt strip (bytes_to_key.go lines 65-71): some alt keys arrive as ESC
followed by a non-bracket byte. -/
def parseKeyAltStrip (b : List Nat) (rl : Nat) (mod : Nat) (force : Bool) : Nat × Nat × Nat :=
  if b.length > 1 ∧ b.getD 0 0 = 0x1b ∧ b.getD 1 0 ≠ 0x5b then
    parseKeyCore (b.drop 1) (rl + 1) (mod ||| ModAlt) force
  else parseKeyCore b rl mod force

/-- Force-mode two-byte special cases (bytes_to_key.go lines 53-63):
ESC ESC and ESC [ resolve immediately when force is set. -/
def parseKeyForce2 (b : List Nat) (rl : Nat) (mod : Nat) (force : Bool) : Nat × Nat × Nat :=
  if b.length = 2 ∧ force = true ∧ b.getD 0 0 = 0x1b then
    if b.getD 1 0 = 0x1b then (KeyEscape, rl + 2, mod ||| ModAlt)
    else if b.getD 1 0 = 0x5b then (KeyLeftBracket, rl + 2, mod ||| ModAlt)
    else parseKeyAltStrip b rl mod force
  else parseKeyAltStrip b rl mod force

/-- Meta-prefix strip (bytes_to_key.go lines 45-51): 0x18 at-sign s sets Meta
and strips three bytes. -/
def parseKeyMeta (b : List Nat) (rl : Nat) (mod : Nat) (force : Bool) : Nat × Nat × Nat :=
  if b.length > 3 ∧ b.getD 0 0 = 0x18 ∧ b.getD 1 0 = 0x40 ∧ b.getD 2 0 = 0x73 then
    parseKeyForce2 (b.drop 3) (rl + 3) (mod ||| ModMeta) force
  else parseKeyForce2 b rl mod force

/-- ParseKey from bytes_to_key.go: parse a key sequence, returning the key
rune, the number of bytes consumed, and the modifier flags.  The SS3 block
comes first; when it matches ESC O 1 without a following P/Q/R/S it falls
through with rl and Meta already accumulated, exactly as the Go code does. -/
def ParseKey (b : List Nat) (force : Bool) : Nat × Nat × Nat :=
  if b.length = 0 then (runeError, 0, ModNone)
  else if b.length > 2 ∧ b.getD 0 0 = 0x1b ∧ b.getD 1 0 = 0x4f then
    if b.length > 3 ∧ b.getD 2 0 = 0x31 then
      match ss3Final (b.getD 3 0) with
      | some k => (k, 1 + 3, ModMeta)
      | none => parseKeyMeta b 1 ModMeta force
    else
      match ss3Final (b.getD 2 0) with
      | some k => (k, 3, ModNone)
      | none => parseKeyMeta b 0 ModNone force
  else parseKeyMeta b 0 ModNone force

/-! ## Scroller (scroller.go)

Filter mutates ScrollOffset and returns the visible runes and the on-screen
cursor column.  Go panics (out-of-range slice or element access) are modelled
as none.  The two scroll loops carry explicit fuel; with ScrollBy ≥ 1 (the
claims fix ScrollBy = 10) the fuel below is never exhausted, since the left
loop ends once the offset is no longer positive and the right loop ends once
the offset reaches maxScroll.  The log.Println calls and the reused nextOutput
scratch buffer have no effect on the returned values and are not modelled. -/

structure Scroller where
  InputWidth : Int
  MaxLineLength : Int
  ScrollOffset : Int
  LeftOverflow : Nat
  RightOverflow : Nat
  ScrollBy : Int
deriving DecidableEq, Repr

/-- The too-far-left loop of Filter: while cursorLoc ≤ 0 and the offset is
positive, shift both by ScrollBy. -/
def scrollLeftLoop : Nat → Int → Int → Int → Int × Int
  | 0, off, cur, _ => (off, cur)
  | fuel + 1, off, cur, sb =>
    if cur ≤ 0 ∧ off > 0 then scrollLeftLoop fuel (off - sb) (cur + sb) sb
    else (off, cur)

/-- The too-far-right loop of Filter: while cursorLoc ≥ width − 1 and the
offset is below maxScroll, shift both by ScrollBy. -/
def scrollRightLoop : Nat → Int → Int → Int → Int → Int → Int × Int
  | 0, off, cur, _, _, _ => (off, cur)
  | fuel + 1, off, cur, sb, w, maxScroll =>
    if cur ≥ w - 1 ∧ off < maxScroll then scrollRightLoop fuel (off + sb) (cur - sb) sb w maxScroll
    else (off, cur)

/-- Replace the first element (Go nextOutput with index 0 written); none on the
empty list, where Go panics. -/
def setFirst (xs : List Nat) (v : Nat) : Option (List Nat) :=
  match xs with
  | [] => none
  | _ :: t => some (v :: t)

/-- Replace the last element (Go nextOutput with the last index written); none
on the empty list, where Go panics. -/
def setLast (xs : List Nat) (v : Nat) : Option (List Nat) :=
  match xs with
  | [] => none
  | _ => some (xs.take (xs.length - 1) ++ [v])

/-- Output phase of Filter (scroller.go lines 96-110): slice the visible
window out of the line at the final scroll offset, write the overflow glyphs,
and return the result together with the cursor column and updated scroller.
The Go slice expression panics (none) unless 0 ≤ off2 ≤ endIdx ≤ len. -/
def filterOutput (s : Scroller) (l : Line) (off2 cur : Int) : Option (List Nat × Int × Scroller) :=
  let lineLen : Int := l.Text.length
  let e0 := off2 + s.InputWidth
  let endIdx := if e0 > lineLen then lineLen else e0
  if 0 ≤ off2 ∧ off2 ≤ endIdx then
    let out0 := (l.Text.drop off2.toNat).take (endIdx - off2).toNat
    match (if off2 > 0 ∧ s.LeftOverflow ≠ 0 then setFirst out0 s.LeftOverflow else some out0) with
    | none => none
    | some out1 =>
      match (if s.InputWidth + off2 < lineLen ∧ s.RightOverflow ≠ 0 then setLast out1 s.RightOverflow else some out1) with
      | none => none
      | some out2 => some (out2, cur, { s with ScrollOffset := off2 })
  else none

/-- Filter from scroller.go.  Returns the visible runes, the on-screen cursor
column, and the scroller with its updated ScrollOffset; none models a Go
runtime panic from an out-of-range slice or element index. -/
def Scroller.Filter (s : Scroller) (l : Line) : Option (List Nat × Int × Scroller) :=
  if s.InputWidth < 1 ∨ s.MaxLineLength < 1 then some (l.Text, l.Pos, s)
  else
    let p1 := scrollLeftLoop (s.ScrollOffset.toNat + 1) s.ScrollOffset (l.Pos - s.ScrollOffset) s.ScrollBy
    let off1 := if p1.1 < 0 then 0 else p1.1
    let maxScroll := s.MaxLineLength - s.InputWidth
    let p2 := scrollRightLoop ((maxScroll - off1).toNat + 1) off1 p1.2 s.ScrollBy s.InputWidth maxScroll
    let off2 := if p2.1 ≥ maxScroll then maxScroll else p2.1
    filterOutput s l off2 p2.2

/-! ## History ring (reader.go, stRingBuffer)

Entries are modelled as rune lists (Go strings, treated opaquely by the ring).
The zero value has a nil entries slice; the first Add allocates the default
100-entry backing array. -/

structure stRingBuffer where
  entries : List (List Nat)
  max : Nat
  head : Nat
  size : Nat
deriving DecidableEq, Repr

/-- Add from reader.go: allocate on first use, advance head mod max, store,
and grow size up to max. -/
def stRingBuffer.Add (s : stRingBuffer) (a : List Nat) : stRingBuffer :=
  let s := if s.entries = [] then { s with entries := List.replicate 100 [], max := 100 } else s
  let h := (s.head + 1) % s.max
  { entries := s.entries.set h a, max := s.max, head := h,
    size := if s.size < s.max then s.size + 1 else s.size }

/-- NthPreviousEntry from reader.go: the value passed to the nth previous Add,
or not-found when n ≥ size. -/
def stRingBuffer.NthPreviousEntry (s : stRingBuffer) (n : Int) : List Nat × Bool :=
  if n ≥ (s.size : Int) then ([], false)
  else
    let index := (s.head : Int) - n
    let index := if index < 0 then index + (s.max : Int) else index
    (s.entries.getD index.toNat [], true)

/-- The zero value of stRingBuffer (a freshly created history ring). -/
def emptyRing : stRingBuffer := ⟨[], 0, 0, 0⟩

/-! ## Line editor (reader.go)

reader.go has its own private key constants and its own bytesToKey; they are
scoped in the Reader namespace (Go keeps them in a separate file era).  The
Input value held by the Reader is not among the provided sources; per spec
section 3 (Line Buffer) it is the text/cursor pair with the line.go
operations, so the Line structure models it (reader.go accesses its rune
slice field, corresponding to Line.Text).  The AutoCompleteCallback hook is
nil in every state considered by the claims and a nil callback in Go falls
straight through to the printability check, so it is not part of the state. -/

namespace Reader

def keyCtrlD : Nat := 4
def keyCtrlU : Nat := 21
def keyEnter : Nat := 13
def keyEscape : Nat := 27
def keyBackspace : Nat := 127
def keyUnknown : Nat := 0xd800 + 5
def keyUp : Nat := 0xd800 + 6
def keyDown : Nat := 0xd800 + 7
def keyLeft : Nat := 0xd800 + 8
def keyRight : Nat := 0xd800 + 9
def keyAltLeft : Nat := 0xd800 + 10
def keyAltRight : Nat := 0xd800 + 11
def keyHome : Nat := 0xd800 + 12
def keyEnd : Nat := 0xd800 + 13
def keyDeleteWord : Nat := 0xd800 + 14
def keyDeleteLine : Nat := 0xd800 + 15
def keyClearScreen : Nat := 0xd800 + 16
def keyPasteStart : Nat := 0xd800 + 17
def keyPasteEnd : Nat := 0xd800 + 18
def keyPgUp : Nat := 0xd800 + 19
def keyPgDn : Nat := 0xd800 + 20

/-- isPrintable from reader.go. -/
def isPrintable (key : Nat) : Bool :=
  decide (32 ≤ key ∧ ¬(0xd800 ≤ key ∧ key ≤ 0xdbff))

/-- Tail checks of reader.go bytesToKey (lines 164-191): the ESC [ 1 ; 3 C/D
Alt arrows, bracketed paste start and end, and the terminator scan. -/
def bytesToKeyRest (b : List Nat) (pasteActive : Bool) : Nat × List Nat :=
  if ¬pasteActive ∧ b.length ≥ 6 ∧ b.getD 0 0 = keyEscape ∧ b.getD 1 0 = 0x5b
      ∧ b.getD 2 0 = 0x31 ∧ b.getD 3 0 = 0x3b ∧ b.getD 4 0 = 0x33
      ∧ (b.getD 5 0 = 0x43 ∨ b.getD 5 0 = 0x44) then
    (if b.getD 5 0 = 0x43 then (keyAltRight, b.drop 6) else (keyAltLeft, b.drop 6))
  else if ¬pasteActive ∧ b.take 6 = pasteStart then (keyPasteStart, b.drop 6)
  else if pasteActive ∧ b.take 6 = pasteEnd then (keyPasteEnd, b.drop 6)
  else
    match b.findIdx? isSeqEnd with
    | some i => (keyUnknown, b.drop (i + 1))
    | none => (runeError, b)

/-- bytesToKey from reader.go (lines 107-192): parse one key and return it
with the remainder.  Go would panic on the inputs ESC [ 5 and ESC [ 6 of
length exactly 3 (the inner switch indexes b[3]); the getD-based model reads
a 0 there instead and falls through, a case no claim exercises. -/
def bytesToKey (b : List Nat) (pasteActive : Bool) : Nat × List Nat :=
  match b with
  | [] => (runeError, [])
  | b0 :: rest =>
    if ¬pasteActive ∧ b0 = 1 then (keyHome, rest)
    else if ¬pasteActive ∧ b0 = 5 then (keyEnd, rest)
    else if ¬pasteActive ∧ b0 = 8 then (keyBackspace, rest)
    else if ¬pasteActive ∧ b0 = 11 then (keyDeleteLine, rest)
    else if ¬pasteActive ∧ b0 = 12 then (keyClearScreen, rest)
    else if ¬pasteActive ∧ b0 = 23 then (keyDeleteWord, rest)
    else if b0 ≠ keyEscape then
      if fullRune b = false then (runeError, b)
      else ((decodeRune b).1, b.drop (decodeRune b).2)
    else if ¬pasteActive ∧ b.length ≥ 3 ∧ b.getD 1 0 = 0x5b then
      let c2 := b.getD 2 0
      if c2 = 0x41 then (keyUp, b.drop 3)
      else if c2 = 0x42 then (keyDown, b.drop 3)
      else if c2 = 0x43 then (keyRight, b.drop 3)
      else if c2 = 0x44 then (keyLeft, b.drop 3)
      else if c2 = 0x48 then (keyHome, b.drop 3)
      else if c2 = 0x46 then (keyEnd, b.drop 3)
      else if c2 = 0x35 ∧ b.getD 3 0 = 0x7e then (keyPgUp, b.drop 4)
      else if c2 = 0x36 ∧ b.getD 3 0 = 0x7e then (keyPgDn, b.drop 4)
      else bytesToKeyRest b pasteActive
    else bytesToKeyRest b pasteActive

/-- Reader state from reader.go (the fields the pure key-handling logic
reads or writes; the io.Reader and lock are the impure environment). -/
structure RState where
  NoHistory : Bool
  MaxLineLength : Int
  input : Line
  pasteActive : Bool
  history : stRingBuffer
  historyIndex : Int
  historyPending : List Nat
deriving DecidableEq, Repr

/-- The state made by NewReader: default MaxLineLength 4096, historyIndex -1,
an empty input line and a zero-valued history ring. -/
def newReader : RState :=
  ⟨false, 4096, ⟨[], 0⟩, false, emptyRing, -1, []⟩

/-- fetchPreviousHistory from reader.go: returns the updated state and the ok
flag. -/
def fetchPreviousHistory (st : RState) : RState × Bool :=
  if st.NoHistory then (st, false)
  else
    let e := st.history.NthPreviousEntry (st.historyIndex + 1)
    if e.2 = false then (st, false)
    else
      let pending := if st.historyIndex = -1 then st.input.Text else st.historyPending
      ({ st with historyPending := pending,
                 historyIndex := st.historyIndex + 1,
                 input := st.input.Set e.1 (e.1.length : Int) }, true)

/-- fetchNextHistory from reader.go. -/
def fetchNextHistory (st : RState) : RState :=
  if st.NoHistory then st
  else if st.historyIndex = -1 then st
  else if st.historyIndex = 0 then
    { st with input := st.input.Set st.historyPending (st.historyPending.length : Int),
              historyIndex := st.historyIndex - 1 }
  else
    let e := st.history.NthPreviousEntry (st.historyIndex - 1)
    if e.2 then
      { st with historyIndex := st.historyIndex - 1,
                input := st.input.Set e.1 (e.1.length : Int) }
    else st

/-- handleKey from reader.go: process one key; returns the new state and the
(line, ok) pair.  In paste mode every key other than Enter is added verbatim.
The AutoCompleteCallback is nil (see the namespace comment). -/
def handleKey (st : RState) (key : Nat) : RState × (List Nat × Bool) :=
  if st.pasteActive ∧ key ≠ keyEnter then
    ({ st with input := st.input.AddKeyToLine key }, ([], false))
  else if key = keyBackspace then ({ st with input := st.input.EraseNPreviousChars 1 }, ([], false))
  else if key = keyAltLeft then ({ st with input := st.input.MoveToLeftWord }, ([], false))
  else if key = keyAltRight then ({ st with input := st.input.MoveToRightWord }, ([], false))
  else if key = keyLeft then ({ st with input := st.input.MoveLeft }, ([], false))
  else if key = keyRight then ({ st with input := st.input.MoveRight }, ([], false))
  else if key = keyHome then ({ st with input := st.input.MoveHome }, ([], false))
  else if key = keyEnd then ({ st with input := st.input.MoveEnd }, ([], false))
  else if key = keyUp then ((fetchPreviousHistory st).1, ([], false))
  else if key = keyDown then (fetchNextHistory st, ([], false))
  else if key = keyEnter then ({ st with input := st.input.Clear }, (st.input.Text, true))
  else if key = keyDeleteWord then
    ({ st with input := st.input.EraseNPreviousChars st.input.CountToLeftWord }, ([], false))
  else if key = keyDeleteLine then ({ st with input := st.input.DeleteLine }, ([], false))
  else if key = keyCtrlD then ({ st with input := st.input.DeleteRuneUnderCursor }, ([], false))
  else if key = keyCtrlU then ({ st with input := st.input.DeleteToBeginningOfLine }, ([], false))
  else if key = keyClearScreen then (st, ([], false))
  else
    if isPrintable key = false then (st, ([], false))
    else if (st.input.Text.length : Int) = st.MaxLineLength then (st, ([], false))
    else ({ st with input := st.input.AddKeyToLine key }, ([], false))

/-- Outcome of running the ReadLine loop on one chunk of input bytes. -/
inductive ReadResult where
  /-- A line was accepted by Enter; pasteIndicator mirrors the
  lineIsPasted flag that selects the ErrPasteIndicator error. -/
  | line (content : List Nat) (pasteIndicator : Bool)
  /-- Ctrl-D on an empty line: ReadLine returns io.EOF. -/
  | eof
  /-- The parser needs more bytes: ReadLine would block on the next read. -/
  | needMore
  /-- Fuel exhausted (never reached with the fuel ReadLine supplies). -/
  | outOfFuel
deriving DecidableEq, Repr

/-- The inner loop of ReadLine (reader.go lines 282-334): parse keys from the
byte buffer, maintaining pasteActive and lineIsPasted, dispatching each key to
handleKey, and on an accepted line doing the history bookkeeping.  Returns the
final state, the unconsumed bytes (the remainder buffer), and the outcome. -/
def readLineAux : Nat → RState → Bool → List Nat → RState × List Nat × ReadResult
  | 0, st, _, rest => (st, rest, .outOfFuel)
  | fuel + 1, st, lineIsPasted, rest =>
    let kr := bytesToKey rest st.pasteActive
    if kr.1 = runeError then (st, kr.2, .needMore)
    else
      let lineLen := st.input.Text.length
      if ¬st.pasteActive ∧ kr.1 = keyCtrlD ∧ lineLen = 0 then (st, kr.2, .eof)
      else if ¬st.pasteActive ∧ kr.1 = keyPasteStart then
        readLineAux fuel { st with pasteActive := true }
          (if lineLen = 0 then true else lineIsPasted) kr.2
      else if st.pasteActive ∧ kr.1 = keyPasteEnd then
        readLineAux fuel { st with pasteActive := false } lineIsPasted kr.2
      else
        let lip := if st.pasteActive then lineIsPasted else false
        let hk := handleKey st kr.1
        if hk.2.2 then
          let st2 :=
            if hk.1.NoHistory then hk.1
            else { hk.1 with historyIndex := -1, history := hk.1.history.Add hk.2.1 }
          (st2, kr.2, .line hk.2.1 lip)
        else readLineAux fuel hk.1 lip kr.2

/-- ReadLine from reader.go, run over a single chunk of input bytes: the
lineIsPasted flag starts as the current pasteActive, and each parsed key
consumes at least one byte, so length-plus-one fuel always suffices. -/
def ReadLine (st : RState) (bytes : List Nat) : RState × List Nat × ReadResult :=
  readLineAux (bytes.length + 1) st st.pasteActive bytes

/-- ReadPassword from reader.go: save NoHistory, force it on, delegate to
ReadLine, restore NoHistory. -/
def ReadPassword (st : RState) (bytes : List Nat) : RState × List Nat × ReadResult :=
  let old := st.NoHistory
  let r := ReadLine { st with NoHistory := true } bytes
  ({ r.1 with NoHistory := old }, r.2.1, r.2.2)

end Reader

/-! ## Edit operations for the Line invariant claim -/

/-- The single edit operations on a Line buffer named by the spec. -/
inductive EditOp where
  | add (r : Nat)
  | erase (n : Nat)
  | deleteLine
  | deleteToBeginning
  | deleteUnder
  | moveLeft
  | moveRight
  | moveHome
  | moveEnd
  | moveLeftWord
  | moveRightWord
  | clear
deriving DecidableEq, Repr

/-- Apply one edit operation (erase takes its n ≥ 0 as a Nat). -/
def applyEditOp (l : Line) : EditOp → Line
  | .add r => l.AddKeyToLine r
  | .erase n => l.EraseNPreviousChars (n : Int)
  | .deleteLine => l.DeleteLine
  | .deleteToBeginning => l.DeleteToBeginningOfLine
  | .deleteUnder => l.DeleteRuneUnderCursor
  | .moveLeft => l.MoveLeft
  | .moveRight => l.MoveRight
  | .moveHome => l.MoveHome
  | .moveEnd => l.MoveEnd
  | .moveLeftWord => l.MoveToLeftWord
  | .moveRightWord => l.MoveToRightWord
  | .clear => l.Clear

/-! ## Lemmas about the word-motion loops -/

theorem skipSpacesLeft_le (t : List Nat) (p : Nat) : skipSpacesLeft t p ≤ p := by
  induction p with
  | zero => exact Nat.le_refl _
  | succ p ih =>
    rw [skipSpacesLeft]
    split
    · exact Nat.le_refl _
    · exact Nat.le_trans ih (by omega)

theorem findLeftWordStart_le (t : List Nat) (p : Nat) : findLeftWordStart t p ≤ p + 1 := by
  induction p with
  | zero => simp [findLeftWordStart]
  | succ p ih =>
    rw [findLeftWordStart]
    split
    · exact Nat.le_refl _
    · exact Nat.le_trans ih (by omega)

theorem skipWordRightF_ge (t : List Nat) (fuel : Nat) :
    ∀ p, p ≤ skipWordRightF t fuel p := by
  induction fuel with
  | zero => intro p; exact Nat.le_refl _
  | succ fuel ih =>
    intro p
    rw [skipWordRightF]
    split
    · split
      · exact Nat.le_refl _
      · exact Nat.le_trans (by omega) (ih (p + 1))
    · exact Nat.le_refl _

theorem skipWordRightF_le (t : List Nat) (fuel : Nat) :
    ∀ p, p ≤ t.length → skipWordRightF t fuel p ≤ t.length := by
  induction fuel with
  | zero => intro p hp; exact hp
  | succ fuel ih =>
    intro p hp
    rw [skipWordRightF]
    split
    · split
      · omega
      · exact ih (p + 1) (by omega)
    · omega

theorem skipWordRight_ge (t : List Nat) (p : Nat) : p ≤ skipWordRight t p :=
  skipWordRightF_ge t _ p

theorem skipWordRight_le (t : List Nat) (p : Nat) (hp : p ≤ t.length) :
    skipWordRight t p ≤ t.length :=
  skipWordRightF_le t _ p hp

theorem skipSpacesRightF_ge (t : List Nat) (fuel : Nat) :
    ∀ p, p ≤ skipSpacesRightF t fuel p := by
  induction fuel with
  | zero => intro p; exact Nat.le_refl _
  | succ fuel ih =>
    intro p
    rw [skipSpacesRightF]
    split
    · split
      · exact Nat.le_refl _
      · exact Nat.le_trans (by omega) (ih (p + 1))
    · exact Nat.le_refl _

theorem skipSpacesRightF_le (t : List Nat) (fuel : Nat) :
    ∀ p, p ≤ t.length → skipSpacesRightF t fuel p ≤ t.length := by
  induction fuel with
  | zero => intro p hp; exact hp
  | succ fuel ih =>
    intro p hp
    rw [skipSpacesRightF]
    split
    · split
      · omega
      · exact ih (p + 1) (by omega)
    · omega

theorem skipSpacesRight_ge (t : List Nat) (p : Nat) : p ≤ skipSpacesRight t p :=
  skipSpacesRightF_ge t _ p

theorem skipSpacesRight_le (t : List Nat) (p : Nat) (hp : p ≤ t.length) :
    skipSpacesRight t p ≤ t.length :=
  skipSpacesRightF_le t _ p hp

/-- LineInv on a literal Line value, for use with simp and omega. -/
theorem lineInv_mk (t : List Nat) (p : Int) :
    LineInv ⟨t, p⟩ ↔ (0 ≤ p ∧ p ≤ (t.length : Int)) := Iff.rfl

/-- CountToLeftWord is between 0 and Pos whenever Pos ≥ 0. -/
theorem countToLeftWord_bounds (l : Line) (h0 : 0 ≤ l.Pos) :
    0 ≤ l.CountToLeftWord ∧ l.CountToLeftWord ≤ l.Pos := by
  unfold Line.CountToLeftWord
  split
  · omega
  · rename_i hne
    have h1 := skipSpacesLeft_le l.Text (l.Pos.toNat - 1)
    have h2 := findLeftWordStart_le l.Text (skipSpacesLeft l.Text (l.Pos.toNat - 1))
    omega

/-- CountToRightWord is between 0 and len(Text) − Pos under the invariant. -/
theorem countToRightWord_bounds (l : Line) (h : LineInv l) :
    0 ≤ l.CountToRightWord ∧ l.Pos + l.CountToRightWord ≤ (l.Text.length : Int) := by
  obtain ⟨h0, h1⟩ := h
  unfold Line.CountToRightWord
  have g1 := skipWordRight_ge l.Text l.Pos.toNat
  have g2 := skipWordRight_le l.Text l.Pos.toNat (by omega)
  have g3 := skipSpacesRight_ge l.Text (skipWordRight l.Text l.Pos.toNat)
  have g4 := skipSpacesRight_le l.Text (skipWordRight l.Text l.Pos.toNat) g2
  omega

/-! ## Invariant preservation for each edit operation -/

theorem eraseN_inv (l : Line) (n : Int) (hn : 0 ≤ n) (h : LineInv l) :
    LineInv (l.EraseNPreviousChars n) := by
  obtain ⟨h0, h1⟩ := h
  unfold Line.EraseNPreviousChars
  split
  · exact ⟨h0, h1⟩
  · rename_i hguard
    simp only [LineInv, List.length_append, List.length_take, List.length_drop]
    constructor <;> [skip; simp only [Nat.cast_add, Nat.cast_min]] <;> split <;> omega

theorem addKey_inv (l : Line) (r : Nat) (h : LineInv l) :
    LineInv (l.AddKeyToLine r) := by
  obtain ⟨h0, h1⟩ := h
  unfold Line.AddKeyToLine
  simp only [LineInv, List.length_append, List.length_take, List.length_cons,
    List.length_drop]
  omega

theorem applyEditOp_inv (l : Line) (h : LineInv l) (op : EditOp) :
    LineInv (applyEditOp l op) := by
  obtain ⟨h0, h1⟩ := h
  cases op with
  | add r => exact addKey_inv l r ⟨h0, h1⟩
  | erase n => exact eraseN_inv l n (by omega) ⟨h0, h1⟩
  | deleteLine =>
    simp only [applyEditOp, Line.DeleteLine, LineInv, List.length_take]
    omega
  | deleteToBeginning => exact eraseN_inv l l.Pos h0 ⟨h0, h1⟩
  | deleteUnder =>
    simp only [applyEditOp, Line.DeleteRuneUnderCursor]
    split
    · rename_i hlt
      apply eraseN_inv _ _ (by omega)
      unfold Line.MoveRight
      split
      · exact ⟨h0, h1⟩
      · simp only [lineInv_mk]; omega
    · exact ⟨h0, h1⟩
  | moveLeft =>
    simp only [applyEditOp, Line.MoveLeft]
    split
    · exact ⟨h0, h1⟩
    · simp only [lineInv_mk]; omega
  | moveRight =>
    simp only [applyEditOp, Line.MoveRight]
    split
    · exact ⟨h0, h1⟩
    · simp only [lineInv_mk]; omega
  | moveHome =>
    simp only [applyEditOp, Line.MoveHome, lineInv_mk]; omega
  | moveEnd =>
    simp only [applyEditOp, Line.MoveEnd, lineInv_mk]; omega
  | moveLeftWord =>
    have hb := countToLeftWord_bounds l h0
    simp only [applyEditOp, Line.MoveToLeftWord, lineInv_mk]
    omega
  | moveRightWord =>
    have hb := countToRightWord_bounds l ⟨h0, h1⟩
    simp only [applyEditOp, Line.MoveToRightWord, lineInv_mk]
    omega
  | clear =>
    simp [applyEditOp, Line.Clear, LineInv]

theorem foldl_applyEditOp_inv (ops : List EditOp) :
    ∀ l : Line, LineInv l → LineInv (ops.foldl applyEditOp l) := by
  induction ops with
  | nil => intro l h; exact h
  | cons op tl ih =>
    intro l h
    exact ih (applyEditOp l op) (applyEditOp_inv l h op)

/-- C2: every Line buffer with 0 ≤ Pos ≤ len(Text) keeps that invariant under
each single edit operation (AddKeyToLine with any rune, EraseNPreviousChars
with any n ≥ 0, DeleteLine, DeleteToBeginningOfLine, DeleteRuneUnderCursor,
the six cursor motions, and Clear), and hence under any sequence of them. -/
theorem line_edit_invariant (l : Line) (h : LineInv l) :
    (∀ op : EditOp, LineInv (applyEditOp l op)) ∧
    (∀ ops : List EditOp, LineInv (ops.foldl applyEditOp l)) :=
  ⟨fun op => applyEditOp_inv l h op, fun ops => foldl_applyEditOp_inv ops l h⟩

/-- Witness for C2 at a concrete buffer, a concrete single operation and a
concrete operation sequence. -/
theorem line_edit_invariant_witness :
    LineInv (applyEditOp ⟨[104, 105], 1⟩ (EditOp.add 97)) ∧
    LineInv (([EditOp.add 97, EditOp.moveLeftWord, EditOp.erase 1] : List EditOp).foldl
      applyEditOp ⟨[104, 105], 1⟩) :=
  ⟨(line_edit_invariant ⟨[104, 105], 1⟩ (by decide)).1 (EditOp.add 97),
   (line_edit_invariant ⟨[104, 105], 1⟩ (by decide)).2 _⟩

theorem moveLeft_text (l : Line) : l.MoveLeft.Text = l.Text := by
  unfold Line.MoveLeft; split <;> rfl

theorem moveRight_text (l : Line) : l.MoveRight.Text = l.Text := by
  unfold Line.MoveRight; split <;> rfl

/-- C9: the six pure cursor motions leave Text unchanged, and so do the
corresponding non-paste handleKey dispatch branches of the reader. -/
theorem motion_preserves_text :
    (∀ l : Line,
      l.MoveLeft.Text = l.Text ∧ l.MoveRight.Text = l.Text ∧
      l.MoveHome.Text = l.Text ∧ l.MoveEnd.Text = l.Text ∧
      l.MoveToLeftWord.Text = l.Text ∧ l.MoveToRightWord.Text = l.Text) ∧
    (∀ st : Reader.RState, st.pasteActive = false →
      ∀ k : Nat,
        (k = Reader.keyLeft ∨ k = Reader.keyRight ∨ k = Reader.keyHome ∨
         k = Reader.keyEnd ∨ k = Reader.keyAltLeft ∨ k = Reader.keyAltRight) →
        (Reader.handleKey st k).1.input.Text = st.input.Text) := by
  constructor
  · intro l
    exact ⟨moveLeft_text l, moveRight_text l, rfl, rfl, rfl, rfl⟩
  · intro st hp k hk
    rcases hk with rfl | rfl | rfl | rfl | rfl | rfl <;>
      simp [Reader.handleKey, hp, Reader.keyLeft, Reader.keyRight, Reader.keyHome,
        Reader.keyEnd, Reader.keyAltLeft, Reader.keyAltRight, Reader.keyBackspace,
        Reader.keyEnter, Reader.keyUp, Reader.keyDown, Reader.keyDeleteWord,
        Reader.keyDeleteLine, Reader.keyCtrlD, Reader.keyCtrlU, Reader.keyClearScreen,
        moveLeft_text, moveRight_text, Line.MoveHome, Line.MoveEnd,
        Line.MoveToLeftWord, Line.MoveToRightWord]

/-- Witness for C9 at a concrete state and key. -/
theorem motion_preserves_text_witness :
    (Reader.handleKey ⟨false, 4096, ⟨[104, 105], 1⟩, false, emptyRing, -1, []⟩
      Reader.keyAltLeft).1.input.Text = [104, 105] :=
  motion_preserves_text.2 ⟨false, 4096, ⟨[104, 105], 1⟩, false, emptyRing, -1, []⟩ rfl
    Reader.keyAltLeft (Or.inr (Or.inr (Or.inr (Or.inr (Or.inl rfl)))))

/-- C4: starting from a fresh reader, typing the eleven bytes of this first
word pair, then ESC ESC [ D (the Alt+Left encoding named by the spec, which
this reader parses as an ignored unknown key), then Ctrl-W, leaves the line
buffer holding the first six runes with the cursor at position 6. -/
theorem hello_world_ctrl_w :
    (Reader.ReadLine Reader.newReader
        [104, 101, 108, 108, 111, 32, 119, 111, 114, 108, 100,
         0x1b, 0x1b, 0x5b, 0x44, 0x17]).1.input
      = ⟨[104, 101, 108, 108, 111, 32], 6⟩ := by decide

/-! ## C1: the recognized-sequence table -/

/-- The recognized byte sequences named by the claim, each with its expected
key and modifier; the expected consumed count is the full sequence length.
The five-byte Alt form ESC [ N ; 3 ~ is listed for N in 2..6 (see the
counterexample for N = 1). -/
def c1Table : List (List Nat × Nat × Nat) :=
  [([0x1b, 0x5b, 0x41], KeyUp, ModNone),
   ([0x1b, 0x5b, 0x42], KeyDown, ModNone),
   ([0x1b, 0x5b, 0x43], KeyRight, ModNone),
   ([0x1b, 0x5b, 0x44], KeyLeft, ModNone),
   ([0x1b, 0x5b, 0x48], KeyHome, ModNone),
   ([0x1b, 0x5b, 0x46], KeyEnd, ModNone),
   ([0x1b, 0x5b, 0x31, 0x7e], KeyHome, ModNone),
   ([0x1b, 0x5b, 0x32, 0x7e], KeyInsert, ModNone),
   ([0x1b, 0x5b, 0x33, 0x7e], KeyDelete, ModNone),
   ([0x1b, 0x5b, 0x34, 0x7e], KeyEnd, ModNone),
   ([0x1b, 0x5b, 0x35, 0x7e], KeyPgUp, ModNone),
   ([0x1b, 0x5b, 0x36, 0x7e], KeyPgDn, ModNone),
   ([0x1b, 0x5b, 0x32, 0x30, 0x30, 0x7e], KeyPasteStart, ModNone),
   ([0x1b, 0x5b, 0x32, 0x30, 0x31, 0x7e], KeyPasteEnd, ModNone),
   ([0x1b, 0x4f, 0x50], KeyF1, ModNone),
   ([0x1b, 0x4f, 0x51], KeyF2, ModNone),
   ([0x1b, 0x4f, 0x52], KeyF3, ModNone),
   ([0x1b, 0x4f, 0x53], KeyF4, ModNone),
   ([0x1b, 0x5b, 0x5b, 0x41], KeyF1, ModNone),
   ([0x1b, 0x5b, 0x5b, 0x42], KeyF2, ModNone),
   ([0x1b, 0x5b, 0x5b, 0x43], KeyF3, ModNone),
   ([0x1b, 0x5b, 0x5b, 0x44], KeyF4, ModNone),
   ([0x1b, 0x5b, 0x5b, 0x45], KeyF5, ModNone),
   ([0x1b, 0x5b, 0x31, 0x31, 0x7e], KeyF1, ModNone),
   ([0x1b, 0x5b, 0x31, 0x32, 0x7e], KeyF2, ModNone),
   ([0x1b, 0x5b, 0x31, 0x33, 0x7e], KeyF3, ModNone),
   ([0x1b, 0x5b, 0x31, 0x34, 0x7e], KeyF4, ModNone),
   ([0x1b, 0x5b, 0x31, 0x35, 0x7e], KeyF5, ModNone),
   ([0x1b, 0x5b, 0x31, 0x37, 0x7e], KeyF6, ModNone),
   ([0x1b, 0x5b, 0x31, 0x38, 0x7e], KeyF7, ModNone),
   ([0x1b, 0x5b, 0x31, 0x39, 0x7e], KeyF8, ModNone),
   ([0x1b, 0x5b, 0x32, 0x30, 0x7e], KeyF9, ModNone),
   ([0x1b, 0x5b, 0x32, 0x31, 0x7e], KeyF10, ModNone),
   ([0x1b, 0x5b, 0x32, 0x33, 0x7e], KeyF11, ModNone),
   ([0x1b, 0x5b, 0x32, 0x34, 0x7e], KeyF12, ModNone),
   ([0x1b, 0x5b, 0x31, 0x3b, 0x33, 0x41], KeyUp, ModAlt),
   ([0x1b, 0x5b, 0x31, 0x3b, 0x33, 0x42], KeyDown, ModAlt),
   ([0x1b, 0x5b, 0x31, 0x3b, 0x33, 0x43], KeyRight, ModAlt),
   ([0x1b, 0x5b, 0x31, 0x3b, 0x33, 0x44], KeyLeft, ModAlt),
   ([0x1b, 0x5b, 0x31, 0x3b, 0x33, 0x48], KeyHome, ModAlt),
   ([0x1b, 0x5b, 0x31, 0x3b, 0x33, 0x46], KeyEnd, ModAlt),
   ([0x1b, 0x5b, 0x32, 0x3b, 0x33, 0x7e], KeyInsert, ModAlt),
   ([0x1b, 0x5b, 0x33, 0x3b, 0x33, 0x7e], KeyDelete, ModAlt),
   ([0x1b, 0x5b, 0x34, 0x3b, 0x33, 0x7e], KeyEnd, ModAlt),
   ([0x1b, 0x5b, 0x35, 0x3b, 0x33, 0x7e], KeyPgUp, ModAlt),
   ([0x1b, 0x5b, 0x36, 0x3b, 0x33, 0x7e], KeyPgDn, ModAlt),
   ([0x18, 0x40, 0x73, 0x1b, 0x5b, 0x41], KeyUp, ModMeta),
   ([0x18, 0x40, 0x73, 0x1b, 0x5b, 0x31, 0x7e], KeyHome, ModMeta)]

/-- C1 amended: ParseKey with force off maps every sequence of the table to
its expected key and modifier, consuming exactly the full sequence length.
The table covers the claim's list with the five-byte Alt tilde form restricted
to N in 2..6; for N = 1 see the counterexample. -/
theorem parseKey_recognized_table :
    c1Table.all
      (fun e => Terminal.ParseKey e.1 false == (e.2.1, e.1.length, e.2.2)) = true := by
  decide

/-- Counterexample for C1 as stated: ESC [ 1 ; 3 ~ (the N = 1 instance of the
Alt form ESC [ N ; 3 ~) is first rewritten by the ESC [ 1 ; 3 X transform and
ends up as the Unknown key, not the Alt-modified Home the table form promises
(it does consume all 6 bytes with the Alt modifier). -/
theorem parseKey_alt_tilde_one :
    ParseKey [0x1b, 0x5b, 0x31, 0x3b, 0x33, 0x7e] false = (KeyUnknown, 6, ModAlt) ∧
    KeyUnknown ≠ KeyHome := by decide

/-! ## C5: keyUnknown check order -/

/-- Counterexample for C5 as stated: a 10-byte non-force buffer that contains
a terminator (its last byte) still takes the drop-first-byte path, returning
RuneError with size 1, not Unknown. -/
theorem keyUnknown_long_buffer :
    keyUnknown [0x31, 0x31, 0x31, 0x31, 0x31, 0x31, 0x31, 0x31, 0x31, 0x41] 0 false 0
        = (runeError, 1, ModNone) ∧
    runeError ≠ KeyUnknown := by decide

theorem findIdx?_eq_some_of_first {α : Type} (p : α → Bool) (d : α) :
    ∀ (l : List α) (s i : Nat), i < l.length → p (l.getD i d) = true →
      (∀ j, j < i → p (l.getD j d) = false) → List.findIdx? p l s = some (s + i) := by
  intro l
  induction l with
  | nil => intro s i hi; simp at hi
  | cons x t ih =>
    intro s i hi hp hmin
    cases i with
    | zero =>
      rw [List.findIdx?_cons, if_pos (by simpa using hp)]
      simp
    | succ i =>
      have hx : p x = false := by simpa using hmin 0 (by omega)
      rw [List.findIdx?_cons, if_neg (by simp [hx])]
      rw [ih (s + 1) i (by simpa using hi) (by simpa using hp)
        (fun j hj => by simpa using hmin (j + 1) (by omega))]
      congr 1
      omega

theorem findIdx?_eq_none_of_all {α : Type} (p : α → Bool) (d : α) :
    ∀ (l : List α) (s : Nat), (∀ j, j < l.length → p (l.getD j d) = false) →
      List.findIdx? p l s = none := by
  intro l
  induction l with
  | nil => intro _ _; rfl
  | cons x t ih =>
    intro s h
    have hx : p x = false := by simpa using h 0 (by simp)
    rw [List.findIdx?_cons, if_neg (by simp [hx])]
    exact ih (s + 1) (fun j hj => by simpa using h (j + 1) (by simpa using hj))

/-- C5 amended: keyUnknown applies the drop-first-byte recovery whenever the
buffer is longer than 8 bytes and force is off, before any scanning; only
otherwise does it scan for the first terminator in a-z, A-Z, tilde and return
(Unknown, rl + index + 1, mod), falling back to the force-dependent RuneError
results when no terminator exists. -/
theorem keyUnknown_order (b : List Nat) (rl : Nat) (force : Bool) (mod : Nat) :
    (b.length > 8 → force = false → keyUnknown b rl force mod = (runeError, 1, ModNone)) ∧
    (¬(b.length > 8 ∧ force = false) →
      ∀ i, i < b.length → isSeqEnd (b.getD i 0) = true →
        (∀ j, j < i → isSeqEnd (b.getD j 0) = false) →
        keyUnknown b rl force mod = (KeyUnknown, rl + i + 1, mod)) ∧
    (¬(b.length > 8 ∧ force = false) →
      (∀ i, i < b.length → isSeqEnd (b.getD i 0) = false) →
      keyUnknown b rl force mod =
        (if force then (runeError, rl + b.length, mod) else (runeError, 0, ModNone))) := by
  refine ⟨?_, ?_, ?_⟩
  · intro h1 h2
    unfold keyUnknown
    rw [if_pos ⟨h1, h2⟩]
  · intro hno i hi hp hmin
    unfold keyUnknown
    rw [if_neg hno]
    have hf := findIdx?_eq_some_of_first isSeqEnd 0 b 0 i hi hp hmin
    simp only [Nat.zero_add] at hf
    rw [hf]
  · intro hno hall
    unfold keyUnknown
    rw [if_neg hno, findIdx?_eq_none_of_all isSeqEnd 0 b 0 hall]

/-- Witness for C5 amended: a short buffer whose terminator sits at index 1. -/
theorem keyUnknown_order_witness :
    keyUnknown [0x31, 0x41] 7 false 1 = (KeyUnknown, 7 + 1 + 1, 1) :=
  (keyUnknown_order [0x31, 0x41] 7 false 1).2.1 (by decide) 1 (by decide) (by decide)
    (fun j hj => by
      have hj0 : j = 0 := by omega
      subst hj0; decide)

/-! ## C3: the Scroller offset interval -/

/-- Counterexample for C3 as stated: two Filter calls in claim scope (ScrollBy
10, InputWidth and MaxLineLength at least 1, ScrollOffset at least 0, Line
invariant satisfied, non-empty result) whose returned cursor column falls
outside the interval promised by the claim: the first returns column -1, the
second returns a column equal to InputWidth. -/
theorem scroller_cursor_out_of_range :
    (Scroller.Filter ⟨5, 20, 1, 0x2026, 0x2026, 10⟩ ⟨List.replicate 12 97, 0⟩
        = some ([0x2026, 97], -1, ⟨5, 20, 10, 0x2026, 0x2026, 10⟩) ∧
      ¬(0 ≤ (-1 : Int))) ∧
    (Scroller.Filter ⟨5, 30, 25, 0x2026, 0x2026, 10⟩ ⟨List.replicate 30 97, 30⟩
        = some ([0x2026, 97, 97, 97, 97], 5, ⟨5, 30, 25, 0x2026, 0x2026, 10⟩) ∧
      ¬((5 : Int) < 5)) := by decide

/-- C3 amended: for claim-scope Scroller states (ScrollBy 10, ScrollOffset at
least 0, InputWidth and MaxLineLength at least 1) and invariant-satisfying
Lines, whenever Filter completes without a Go panic and returns a non-empty
rune slice, the updated ScrollOffset lies in the interval from 0 to
max 0 (MaxLineLength − InputWidth); the returned cursor column can leave the
interval promised by the original claim (see the counterexample). -/
theorem scroller_offset_in_range (s : Scroller) (l : Line) (out : List Nat) (c : Int)
    (s' : Scroller) (hsb : s.ScrollBy = 10) (hso : 0 ≤ s.ScrollOffset) (hl : LineInv l)
    (hw : 1 ≤ s.InputWidth) (hm : 1 ≤ s.MaxLineLength) (hne : out ≠ [])
    (hf : s.Filter l = some (out, c, s')) :
    0 ≤ s'.ScrollOffset ∧ s'.ScrollOffset ≤ max 0 (s.MaxLineLength - s.InputWidth) := by
  have hout : ∀ off2 cur r, filterOutput s l off2 cur = some r →
      0 ≤ off2 ∧ r.2.2.ScrollOffset = off2 := by
    intro off2 cur r hr
    simp only [filterOutput] at hr
    repeat' split at hr
    all_goals
      first
        | exact Option.noConfusion hr
        | (simp only [Option.some.injEq] at hr; subst hr; exact ⟨by omega, rfl⟩)
  have hclamp : ∀ x m : Int, 0 ≤ (if x ≥ m then m else x) →
      (if x ≥ m then m else x) ≤ max 0 m := by
    intro x m h0
    rw [max_def]
    split_ifs at h0 ⊢ <;> omega
  simp only [Scroller.Filter] at hf
  rw [if_neg (by omega)] at hf
  obtain ⟨h0, hs'⟩ := hout _ _ _ hf
  rw [hs']
  exact ⟨h0, hclamp _ _ h0⟩

/-- Witness for C3 amended, at the spec's own scenario: width 10, max length
100, offset 10, a 25-rune line with the cursor at 15. -/
theorem scroller_offset_in_range_witness :
    0 ≤ (⟨10, 100, 10, 0x2026, 0x2026, 10⟩ : Scroller).ScrollOffset ∧
    (0 : Int) ≤ 10 ∧
    ((⟨10, 100, 10, 0x2026, 0x2026, 10⟩ : Scroller).ScrollOffset
      ≤ max 0 ((100 : Int) - 10)) := by
  refine ⟨by decide, by decide, ?_⟩
  have h := scroller_offset_in_range ⟨10, 100, 10, 0x2026, 0x2026, 10⟩
    ⟨List.replicate 25 97, 15⟩
    (0x2026 :: List.replicate 8 97 ++ [0x2026]) 5 ⟨10, 100, 10, 0x2026, 0x2026, 10⟩
    (by decide) (by decide) (by decide) (by decide) (by decide) (by decide) (by decide)
  exact h.2

/-! ## C8: the history ring -/

theorem getD_set_ne {α : Type} (l : List α) (i j : Nat) (a d : α) (h : i ≠ j) :
    (l.set i a).getD j d = l.getD j d := by
  rw [List.getD_eq_getElem?_getD, List.getD_eq_getElem?_getD, List.getElem?_set_ne h]

theorem getD_set_self {α : Type} (l : List α) (i : Nat) (a d : α) (h : i < l.length) :
    (l.set i a).getD i d = a := by
  rw [List.getD_eq_getElem?_getD, List.getElem?_set_eq_of_lt a h]
  rfl

/-- Characterization of the ring after adding the entries of L (in order) to a
freshly created ring, for 1 ≤ len(L) ≤ 100: the backing array has the default
100 slots, the size is len(L), the head is len(L) mod 100, and the j-th added
entry sits at slot (j + 1) mod 100. -/
theorem addAll_char (L : List (List Nat)) (h1 : 1 ≤ L.length) (h100 : L.length ≤ 100) :
    (L.foldl stRingBuffer.Add emptyRing).max = 100 ∧
    (L.foldl stRingBuffer.Add emptyRing).entries.length = 100 ∧
    (L.foldl stRingBuffer.Add emptyRing).size = L.length ∧
    (L.foldl stRingBuffer.Add emptyRing).head = L.length % 100 ∧
    ∀ j, j < L.length →
      (L.foldl stRingBuffer.Add emptyRing).entries.getD ((j + 1) % 100) [] = L.getD j [] := by
  induction L using List.reverseRecOn with
  | nil => simp at h1
  | append_singleton t a ih =>
    rcases Nat.eq_zero_or_pos t.length with ht0 | htpos
    · have ht : t = [] := List.length_eq_zero.mp ht0
      subst ht
      simp only [List.nil_append, List.foldl_cons, List.foldl_nil]
      refine ⟨rfl, by simp [stRingBuffer.Add, emptyRing], rfl, rfl, ?_⟩
      intro j hj
      simp only [List.length_cons, List.length_nil] at hj
      have hj0 : j = 0 := by omega
      subst hj0
      show ((List.replicate 100 ([] : List Nat)).set 1 a).getD 1 [] = _
      rw [getD_set_self _ _ _ _ (by simp)]
      rfl
    · have hlen : (t ++ [a]).length = t.length + 1 := by simp
      have ht100 : t.length ≤ 99 := by
        have := h100
        simp only [hlen] at this
        omega
      obtain ⟨hmax, hent, hsize, hhead, hget⟩ := ih htpos (by omega)
      rw [List.foldl_append] at *
      simp only [List.foldl_cons, List.foldl_nil]
      set r := t.foldl stRingBuffer.Add emptyRing with hr
      have hne : r.entries ≠ [] := by
        intro hcon
        rw [hcon] at hent
        simp at hent
      have hmod : t.length % 100 = t.length := Nat.mod_eq_of_lt (by omega)
      constructor
      · simp [stRingBuffer.Add, if_neg hne, hmax]
      constructor
      · simp [stRingBuffer.Add, if_neg hne, hent]
      constructor
      · simp only [stRingBuffer.Add, if_neg hne, hmax, hsize, hlen]
        rw [if_pos (by omega)]
      constructor
      · simp only [stRingBuffer.Add, if_neg hne, hmax, hhead, hlen, hmod]
      · intro j hj
        simp only [hlen] at hj
        simp only [stRingBuffer.Add, if_neg hne, hmax, hhead, hmod]
        rcases Nat.lt_or_ge j t.length with hjt | hjt
        · have hne2 : (t.length + 1) % 100 ≠ (j + 1) % 100 := by
            have e1 : (j + 1) % 100 = j + 1 := Nat.mod_eq_of_lt (by omega)
            rcases Nat.lt_or_ge (t.length + 1) 100 with hc | hc
            · rw [Nat.mod_eq_of_lt hc, e1]; omega
            · have : t.length + 1 = 100 := by omega
              rw [this, e1]
              simp
          rw [getD_set_ne _ _ _ _ _ hne2, hget j hjt,
            List.getD_append _ _ _ _ (by omega)]
        · have hj' : j = t.length := by omega
          subst hj'
          rw [getD_set_self _ _ _ _ (by rw [hent]; exact Nat.mod_lt _ (by omega)),
            List.getD_append_right _ _ _ _ (by omega)]
          simp

/-- C8: after k adds to a fresh default-capacity ring with k ≤ 100,
NthPreviousEntry i returns the (k − i)-th added entry with ok for every
i < k (most-recent first), and NthPreviousEntry k reports not-found. -/
theorem history_ring_lifo (L : List (List Nat)) (h100 : L.length ≤ 100) :
    (∀ i : Nat, i < L.length →
      (L.foldl stRingBuffer.Add emptyRing).NthPreviousEntry (i : Int)
        = (L.getD (L.length - 1 - i) [], true)) ∧
    (L.foldl stRingBuffer.Add emptyRing).NthPreviousEntry (L.length : Int)
        = ([], false) := by
  rcases Nat.eq_zero_or_pos L.length with h0 | hpos
  · constructor
    · intro i hi; omega
    · have hL : L = [] := List.length_eq_zero.mp h0
      subst hL
      decide
  · obtain ⟨hmax, hent, hsize, hhead, hget⟩ := addAll_char L hpos h100
    constructor
    · intro i hi
      unfold stRingBuffer.NthPreviousEntry
      rw [if_neg (by rw [hsize]; omega)]
      have hidx :
          ((if ((L.foldl stRingBuffer.Add emptyRing).head : Int) - i < 0 then
              ((L.foldl stRingBuffer.Add emptyRing).head : Int) - i +
                ((L.foldl stRingBuffer.Add emptyRing).max : Int)
            else ((L.foldl stRingBuffer.Add emptyRing).head : Int) - i)).toNat
            = ((L.length - 1 - i) + 1) % 100 := by
        rw [hhead, hmax]
        rcases Nat.lt_or_ge L.length 100 with hc | hc
        · rw [Nat.mod_eq_of_lt hc, if_neg (by omega), Nat.mod_eq_of_lt (by omega)]
          omega
        · have h100' : L.length = 100 := by omega
          rw [h100']
          rcases Nat.eq_zero_or_pos i with hi0 | hipos
          · subst hi0
            norm_num
          · rw [if_pos (by simp; omega)]
            have : (100 - 1 - i + 1) % 100 = 100 - i := by omega
            rw [this]
            omega
      simp only []
      rw [hidx, hget (L.length - 1 - i) (by omega)]
    · unfold stRingBuffer.NthPreviousEntry
      rw [if_pos (by rw [hsize])]

/-- Witness for C8 at two concrete entries. -/
theorem history_ring_lifo_witness :
    ([[104], [105]].foldl stRingBuffer.Add emptyRing).NthPreviousEntry 1 = ([104], true) ∧
    ([[104], [105]].foldl stRingBuffer.Add emptyRing).NthPreviousEntry 2 = ([], false) := by
  have h := history_ring_lifo [[104], [105]] (by decide)
  exact ⟨h.1 1 (by decide), h.2⟩

/-! ## C6: parser monotonicity -/

/-- Unfolding equation for fullRune on a non-empty list. -/
theorem fullRune_cons (b0 : Nat) (rest : List Nat) :
    fullRune (b0 :: rest) =
      (if rest.length + 1 ≥ firstSize b0 then true
       else
        match rest with
        | [] => false
        | b1 :: rest2 =>
          if b1 < acceptLo b0 ∨ acceptHi b0 < b1 then true
          else
            match rest2 with
            | [] => false
            | b2 :: _ => decide (b2 < 0x80 ∨ 0xbf < b2)) := rfl

/-- Once a full rune sits at the front of the buffer, appending bytes changes
neither FullRune nor the DecodeRune result. -/
theorem utf8_append (b0 : Nat) (rest S : List Nat) (h : fullRune (b0 :: rest) = true) :
    fullRune (b0 :: (rest ++ S)) = true ∧
    decodeRune (b0 :: (rest ++ S)) = decodeRune (b0 :: rest) := by
  by_cases h1 : b0 < 0xc2
  · have hs : firstSize b0 = 1 := by unfold firstSize; rw [if_pos h1]
    refine ⟨by rw [fullRune_cons, if_pos (by simp [hs])], ?_⟩
    by_cases h0 : b0 < 0x80
    · simp [decodeRune, h0]
    · simp [decodeRune, h0, h1]
  · by_cases h2 : b0 < 0xe0
    · have hs : firstSize b0 = 2 := by unfold firstSize; rw [if_neg h1, if_pos h2]
      have e0 : ¬ b0 < 0x80 := by omega
      rcases rest with _ | ⟨c1, t⟩
      · rw [fullRune_cons, if_neg (by simp [hs])] at h
        simp at h
      · refine ⟨by rw [fullRune_cons, if_pos (by simp [hs, List.length_cons])], ?_⟩
        simp [decodeRune, e0, h1, h2]
    · by_cases h3 : b0 < 0xf0
      · have hs : firstSize b0 = 3 := by
          unfold firstSize; rw [if_neg h1, if_neg h2, if_pos h3]
        have e0 : ¬ b0 < 0x80 := by omega
        rcases rest with _ | ⟨c1, _ | ⟨c2, t⟩⟩
        · rw [fullRune_cons, if_neg (by simp [hs])] at h
          simp at h
        · have hc1 : c1 < acceptLo b0 ∨ acceptHi b0 < c1 := by
            rw [fullRune_cons, if_neg (by simp [hs])] at h
            by_cases hc : c1 < acceptLo b0 ∨ acceptHi b0 < c1
            · exact hc
            · simp [hc] at h
          have hcr : ¬ (acceptLo b0 ≤ c1 ∧ c1 ≤ acceptHi b0) := by omega
          rcases S with _ | ⟨s0, S'⟩
          · exact ⟨by simpa using h, by simp⟩
          · constructor
            · rw [fullRune_cons]
              split
              · rfl
              · simp [hc1]
            · simp [decodeRune, e0, h1, h2, h3, hcr]
        · refine ⟨by rw [fullRune_cons, if_pos (by simp [hs, List.length_cons])], ?_⟩
          simp [decodeRune, e0, h1, h2, h3]
      · by_cases h4 : b0 < 0xf5
        · have hs : firstSize b0 = 4 := by
            unfold firstSize; rw [if_neg h1, if_neg h2, if_neg h3, if_pos h4]
          have e0 : ¬ b0 < 0x80 := by omega
          rcases rest with _ | ⟨c1, _ | ⟨c2, _ | ⟨c3, t⟩⟩⟩
          · rw [fullRune_cons, if_neg (by simp [hs])] at h
            simp at h
          · have hc1 : c1 < acceptLo b0 ∨ acceptHi b0 < c1 := by
              rw [fullRune_cons, if_neg (by simp [hs])] at h
              by_cases hc : c1 < acceptLo b0 ∨ acceptHi b0 < c1
              · exact hc
              · simp [hc] at h
            have hcr : ¬ (acceptLo b0 ≤ c1 ∧ c1 ≤ acceptHi b0) := by omega
            rcases S with _ | ⟨s0, S'⟩
            · exact ⟨by simpa using h, by simp⟩
            · constructor
              · rw [fullRune_cons]
                split
                · rfl
                · simp [hc1]
              · rcases S' with _ | ⟨s1, S''⟩
                · simp [decodeRune, e0, h1, h2, h3, h4]
                · simp [decodeRune, e0, h1, h2, h3, h4, hcr]
          · have hc : (c1 < acceptLo b0 ∨ acceptHi b0 < c1) ∨ (c2 < 0x80 ∨ 0xbf < c2) := by
              rw [fullRune_cons, if_neg (by simp [hs])] at h
              by_cases hca : c1 < acceptLo b0 ∨ acceptHi b0 < c1
              · exact Or.inl hca
              · simp only [hca, if_false] at h
                simp at h
                exact Or.inr (by omega)
            rcases S with _ | ⟨s0, S'⟩
            · exact ⟨by simpa using h, by simp⟩
            · constructor
              · rw [fullRune_cons]
                simp only [List.cons_append, List.nil_append]
                split
                · rfl
                · rcases hc with hx | hx
                  · simp [hx]
                  · split
                    · rfl
                    · simp [hx]
              · rcases hc with hx | hx
                · simp [decodeRune, e0, h1, h2, h3, h4,
                    show ¬ (acceptLo b0 ≤ c1 ∧ c1 ≤ acceptHi b0) from by omega]
                · simp [decodeRune, e0, h1, h2, h3, h4,
                    show ¬ (0x80 ≤ c2 ∧ c2 ≤ 0xbf) from by omega]
          · refine ⟨by rw [fullRune_cons, if_pos (by simp [hs, List.length_cons])], ?_⟩
            simp [decodeRune, e0, h1, h2, h3, h4]
        · have hs : firstSize b0 = 1 := by
            unfold firstSize; rw [if_neg h1, if_neg h2, if_neg h3, if_neg h4]
          have e0 : ¬ b0 < 0x80 := by omega
          refine ⟨by rw [fullRune_cons, if_pos (by simp [hs])], ?_⟩
          simp [decodeRune, e0, h1, h2, h3, h4]

/-- For a buffer whose first byte is neither ESC nor 0x18, ParseKey reduces to
its core stage with no accumulated prefix. -/
theorem parseKey_reduce_core (C : List Nat) (hC1 : C.getD 0 0 ≠ 0x1b)
    (hC2 : C.getD 0 0 ≠ 0x18) (hCne : C ≠ []) :
    ParseKey C false = parseKeyCore C 0 ModNone false := by
  unfold ParseKey parseKeyMeta parseKeyForce2 parseKeyAltStrip
  rw [if_neg (fun hcon => hCne (List.length_eq_zero.mp hcon)),
    if_neg (fun hcon => hC1 hcon.2.1),
    if_neg (fun hcon => hC2 hcon.2.1),
    if_neg (fun hcon => by simpa using hcon.2.1),
    if_neg (fun hcon => hC1 hcon.2.1)]

/-- Counterexample for C6 as stated: ESC O parses with force off as Alt+O
consuming both bytes, but appending a P re-parses the same prefix as the F1
triple; likewise a lone 0x18 parses as the control byte 0x18 but grows into a
Meta-modified rune when at-sign, s and a letter are appended. -/
theorem parseKey_not_monotone :
    (ParseKey [0x1b, 0x4f] false = (0x4f, 2, ModAlt) ∧
     ParseKey ([0x1b, 0x4f] ++ [0x50]) false = (KeyF1, 3, ModNone)) ∧
    (ParseKey [0x18] false = (0x18, 1, ModNone) ∧
     ParseKey ([0x18] ++ [0x40, 0x73, 0x78]) false = (0x78, 4, ModMeta)) ∧
    ((0x4f : Nat), (2 : Nat), ModAlt) ≠ ((KeyF1 : Nat), (3 : Nat), ModNone) := by decide

/-- C6 amended: ParseKey with force off is monotonic under appending a suffix
whenever the first byte of the buffer is neither ESC (0x1b) nor the Meta
prefix byte (0x18): if it parses B to (key, n, mod) with n positive, it
parses B followed by any S to the same triple.  The two excluded first bytes
genuinely break monotonicity (see the counterexample). -/
theorem parseKey_monotone (B S : List Nat) (k n m : Nat)
    (hB : ∀ x ∈ B, x < 256)
    (hesc : B.getD 0 0 ≠ 0x1b) (hmeta : B.getD 0 0 ≠ 0x18)
    (hp : ParseKey B false = (k, n, m)) (hn : 0 < n) :
    ParseKey (B ++ S) false = (k, n, m) := by
  rcases B with _ | ⟨b0, rest⟩
  · exfalso
    have : ParseKey [] false = (runeError, 0, ModNone) := rfl
    rw [this] at hp
    simp only [Prod.mk.injEq] at hp
    omega
  · have hc0 : ((b0 :: rest) ++ S).getD 0 0 = b0 := by simp
    have hb0 : (b0 :: rest).getD 0 0 = b0 := by simp
    rw [hb0] at hesc hmeta
    rw [parseKey_reduce_core _ (by rw [hb0]; exact hesc) (by rw [hb0]; exact hmeta)
      (by simp)] at hp
    rw [parseKey_reduce_core _ (by rw [hc0]; exact hesc) (by rw [hc0]; exact hmeta)
      (by simp)]
    by_cases hlt : b0 < 27
    · have lhs : parseKeyCore (b0 :: rest) 0 ModNone false = (b0, 1, ModNone) := by
        simp [parseKeyCore, KeyEscape, hlt]
      have rhs : parseKeyCore ((b0 :: rest) ++ S) 0 ModNone false = (b0, 1, ModNone) := by
        simp [parseKeyCore, KeyEscape, hlt]
      rw [rhs, ← lhs, hp]
    · have hne27 : b0 ≠ 27 := by simpa [KeyEscape] using hesc
      by_cases hfull : fullRune (b0 :: rest) = true
      · obtain ⟨hfa, hda⟩ := utf8_append b0 rest S hfull
        have lhs : parseKeyCore (b0 :: rest) 0 ModNone false
            = ((decodeRune (b0 :: rest)).1, 0 + (decodeRune (b0 :: rest)).2, ModNone) := by
          simp [parseKeyCore, hlt, KeyEscape, hne27, hfull]
        have rhs : parseKeyCore ((b0 :: rest) ++ S) 0 ModNone false
            = ((decodeRune (b0 :: rest)).1, 0 + (decodeRune (b0 :: rest)).2, ModNone) := by
          simp [parseKeyCore, hlt, KeyEscape, hne27, List.cons_append, hfa, hda]
        rw [rhs, ← lhs, hp]
      · exfalso
        have hff : fullRune (b0 :: rest) = false := by
          revert hfull; cases fullRune (b0 :: rest) <;> simp
        have lhs : parseKeyCore (b0 :: rest) 0 ModNone false = (runeError, 0, ModNone) := by
          simp [parseKeyCore, hlt, KeyEscape, hne27, hff]
        rw [lhs] at hp
        simp only [Prod.mk.injEq] at hp
        omega

/-- Witness for C6 amended at a one-byte letter buffer and a one-byte suffix. -/
theorem parseKey_monotone_witness :
    ParseKey ([0x41] ++ [0x42]) false = (0x41, 1, ModNone) :=
  parseKey_monotone [0x41] [0x42] 0x41 1 ModNone (by decide) (by decide) (by decide)
    (by decide) (by decide)

/-! ## C7: the paste indicator -/

/-- The reader-level bytesToKey consumes a printable ASCII byte as itself in
either paste mode. -/
theorem bytesToKey_printable (x : Nat) (X : List Nat) (p : Bool)
    (h1 : 32 ≤ x) (h2 : x ≤ 126) :
    Reader.bytesToKey (x :: X) p = (x, X) := by
  have hsx : firstSize x = 1 := by unfold firstSize; rw [if_pos (by omega)]
  have hfr : fullRune (x :: X) = true := by rw [fullRune_cons, if_pos (by simp [hsx])]
  have hdec : decodeRune (x :: X) = (x, 1) := by
    simp [decodeRune, show x < 0x80 from by omega]
  simp [Reader.bytesToKey, Reader.keyEscape, hfr, hdec,
    show ¬ x = 1 from by omega, show ¬ x = 5 from by omega, show ¬ x = 8 from by omega,
    show ¬ x = 11 from by omega, show ¬ x = 12 from by omega, show ¬ x = 23 from by omega,
    show ¬ x = 27 from by omega]

/-- The reader-level bytesToKey consumes the carriage return as the Enter key
in either paste mode. -/
theorem bytesToKey_cr (X : List Nat) (p : Bool) :
    Reader.bytesToKey (13 :: X) p = (13, X) := by
  have hsx : firstSize 13 = 1 := by unfold firstSize; rw [if_pos (by omega)]
  have hfr : fullRune (13 :: X) = true := by rw [fullRune_cons, if_pos (by simp [hsx])]
  have hdec : decodeRune (13 :: X) = (13, 1) := by
    simp [decodeRune]
  simp [Reader.bytesToKey, Reader.keyEscape, hfr, hdec]

/-- The reader-level bytesToKey recognizes the bracketed-paste start sequence
outside paste mode. -/
theorem bytesToKey_pasteStartSeq (X : List Nat) :
    Reader.bytesToKey (pasteStart ++ X) false = (Reader.keyPasteStart, X) := by
  show Reader.bytesToKey (27 :: 0x5b :: 0x32 :: 0x30 :: 0x30 :: 0x7e :: X) false = _
  simp only [Reader.bytesToKey]
  rw [if_neg (by simp), if_neg (by simp), if_neg (by simp), if_neg (by simp),
    if_neg (by simp), if_neg (by simp), if_neg (by simp [Reader.keyEscape]),
    if_pos ⟨by simp, by simp only [List.length_cons]; omega, by rfl⟩,
    if_neg (by simp), if_neg (by simp), if_neg (by simp), if_neg (by simp),
    if_neg (by simp), if_neg (by simp), if_neg (by simp), if_neg (by simp)]
  simp only [Reader.bytesToKeyRest]
  rw [if_neg (by simp), if_pos (by exact ⟨by simp, by rfl⟩)]
  rfl

/-- The reader-level bytesToKey recognizes the bracketed-paste end sequence in
paste mode. -/
theorem bytesToKey_pasteEndSeq (X : List Nat) :
    Reader.bytesToKey (pasteEnd ++ X) true = (Reader.keyPasteEnd, X) := by
  show Reader.bytesToKey (27 :: 0x5b :: 0x32 :: 0x30 :: 0x31 :: 0x7e :: X) true = _
  simp only [Reader.bytesToKey]
  rw [if_neg (by simp), if_neg (by simp), if_neg (by simp), if_neg (by simp),
    if_neg (by simp), if_neg (by simp), if_neg (by simp [Reader.keyEscape]),
    if_neg (by simp)]
  simp only [Reader.bytesToKeyRest]
  rw [if_neg (by simp), if_neg (by simp), if_pos (by exact ⟨by trivial, by rfl⟩)]
  rfl

/-- handleKey on the Enter key accepts the line and clears the buffer, in or
out of paste mode. -/
theorem handleKey_enter (st : Reader.RState) :
    Reader.handleKey st 13 = ({ st with input := st.input.Clear }, (st.input.Text, true)) := by
  simp [Reader.handleKey, Reader.keyEnter, Reader.keyBackspace, Reader.keyAltLeft,
    Reader.keyAltRight, Reader.keyLeft, Reader.keyRight, Reader.keyHome, Reader.keyEnd,
    Reader.keyUp, Reader.keyDown, Reader.keyDeleteWord, Reader.keyDeleteLine,
    Reader.keyCtrlD, Reader.keyCtrlU, Reader.keyClearScreen]

/-- handleKey in paste mode adds any printable ASCII byte to the line. -/
theorem handleKey_paste_printable (st : Reader.RState) (x : Nat)
    (hpa : st.pasteActive = true) (h1 : 32 ≤ x) :
    Reader.handleKey st x = ({ st with input := st.input.AddKeyToLine x }, ([], false)) := by
  unfold Reader.handleKey
  rw [if_pos ⟨hpa, by simp [Reader.keyEnter]; omega⟩]

/-- AddKeyToLine folded over a rune list starting from a cursor-at-end line
appends the runes and keeps the cursor at the end. -/
theorem addAll_line (payload : List Nat) : ∀ acc : List Nat,
    payload.foldl Line.AddKeyToLine ⟨acc, (acc.length : Int)⟩
      = ⟨acc ++ payload, ((acc ++ payload).length : Int)⟩ := by
  induction payload with
  | nil => intro acc; simp
  | cons x tl ih =>
    intro acc
    rw [List.foldl_cons]
    have hstep : Line.AddKeyToLine ⟨acc, (acc.length : Int)⟩ x
        = ⟨acc ++ [x], ((acc ++ [x]).length : Int)⟩ := by
      unfold Line.AddKeyToLine
      simp
    rw [hstep, ih (acc ++ [x])]
    simp

/-- While paste mode is active, the ReadLine loop adds each printable payload
byte to the line verbatim, consuming one fuel per byte. -/
theorem readLineAux_paste_printable (payload : List Nat)
    (hp : ∀ x ∈ payload, 32 ≤ x ∧ x ≤ 126) :
    ∀ (fuel : Nat) (st : Reader.RState) (lip : Bool) (rest : List Nat),
      st.pasteActive = true →
      Reader.readLineAux (payload.length + fuel) st lip (payload ++ rest)
        = Reader.readLineAux fuel
            { st with input := payload.foldl Line.AddKeyToLine st.input } lip rest := by
  induction payload with
  | nil =>
    intro fuel st lip rest hpa
    simp
  | cons x tl ih =>
    intro fuel st lip rest hpa
    have hx := hp x (by simp)
    have htl : ∀ y ∈ tl, 32 ≤ y ∧ y ≤ 126 := fun y hy => hp y (by simp [hy])
    rw [show (x :: tl).length + fuel = (tl.length + fuel) + 1 from by
      simp only [List.length_cons]; omega]
    rw [show (x :: tl) ++ rest = x :: (tl ++ rest) from rfl]
    simp only [Reader.readLineAux]
    rw [bytesToKey_printable x (tl ++ rest) st.pasteActive hx.1 hx.2,
      handleKey_paste_printable st x hpa hx.1]
    rw [if_neg (by simp [runeError]; omega)]
    rw [if_neg (by simp [hpa])]
    rw [if_neg (by simp [hpa])]
    rw [if_neg (by
      simp only [hpa, true_and]
      simp [Reader.keyPasteEnd]
      omega)]
    simp only [hpa, if_true, if_false]
    rw [ih htl fuel _ lip rest (by simp [hpa])]
    simp

/-- One loop step on the bracketed-paste start sequence: pasteActive turns on
and lineIsPasted is set when the line is empty. -/
theorem readLineAux_pasteStart_step (fuel : Nat) (st : Reader.RState) (lip : Bool)
    (rest : List Nat) (hpa : st.pasteActive = false) :
    Reader.readLineAux (fuel + 1) st lip (pasteStart ++ rest)
      = Reader.readLineAux fuel { st with pasteActive := true }
          (if st.input.Text.length = 0 then true else lip) rest := by
  simp only [Reader.readLineAux, hpa]
  rw [bytesToKey_pasteStartSeq rest]
  rw [if_neg (by simp [Reader.keyPasteStart, runeError])]
  rw [if_neg (by simp [Reader.keyPasteStart, Reader.keyCtrlD])]
  rw [if_pos ⟨by simp, rfl⟩]

/-- One loop step on the bracketed-paste end sequence in paste mode:
pasteActive turns off and lineIsPasted is carried unchanged. -/
theorem readLineAux_pasteEnd_step (fuel : Nat) (st : Reader.RState) (lip : Bool)
    (rest : List Nat) (hpa : st.pasteActive = true) :
    Reader.readLineAux (fuel + 1) st lip (pasteEnd ++ rest)
      = Reader.readLineAux fuel { st with pasteActive := false } lip rest := by
  simp only [Reader.readLineAux, hpa]
  rw [bytesToKey_pasteEndSeq rest]
  rw [if_neg (by simp [Reader.keyPasteEnd, runeError])]
  rw [if_neg (by simp [Reader.keyPasteEnd, Reader.keyCtrlD])]
  rw [if_neg (by simp [Reader.keyPasteEnd, Reader.keyPasteStart])]
  rw [if_pos (by exact ⟨by trivial, rfl⟩)]

/-- One loop step on a carriage return: the line is accepted with the paste
indicator equal to lineIsPasted exactly when paste mode is still active. -/
theorem readLineAux_enter_step (fuel : Nat) (st : Reader.RState) (lip : Bool)
    (rest : List Nat) :
    Reader.readLineAux (fuel + 1) st lip (13 :: rest)
      = (if st.NoHistory then { st with input := st.input.Clear }
         else { st with input := st.input.Clear, historyIndex := -1,
                        history := st.history.Add st.input.Text },
         rest, .line st.input.Text (if st.pasteActive then lip else false)) := by
  simp only [Reader.readLineAux]
  rw [bytesToKey_cr rest st.pasteActive]
  rw [if_neg (by simp [runeError])]
  rw [if_neg (by simp [Reader.keyCtrlD])]
  rw [if_neg (by simp [Reader.keyPasteStart])]
  rw [if_neg (by simp [Reader.keyPasteEnd])]
  rw [handleKey_enter st]
  simp

/-- C7 (amended): with bracketed paste, a line whose content arrives entirely
inside a paste burst is reported with the paste indicator (the
ErrPasteIndicator error) only if the accepting Enter itself is processed while
paste mode is still active: ESC[200~ payload CR yields the indicator, while
ESC[200~ payload ESC[201~ CR accepts the same fully-pasted content without
it. -/
theorem readline_paste_indicator (payload : List Nat)
    (hpr : ∀ x ∈ payload, 32 ≤ x ∧ x ≤ 126) :
    (Reader.ReadLine Reader.newReader (pasteStart ++ (payload ++ [13]))).2.2
        = Reader.ReadResult.line payload true ∧
    (Reader.ReadLine Reader.newReader
        (pasteStart ++ (payload ++ (pasteEnd ++ [13])))).2.2
        = Reader.ReadResult.line payload false := by
  have hfold : payload.foldl Line.AddKeyToLine ⟨[], 0⟩
      = ⟨payload, (payload.length : Int)⟩ := by
    have h := addAll_line payload []
    simpa using h
  constructor
  · unfold Reader.ReadLine
    have hl1 : (pasteStart ++ (payload ++ [13])).length + 1 = (payload.length + 7) + 1 := by
      simp [pasteStart]
    rw [hl1]
    rw [readLineAux_pasteStart_step (payload.length + 7) Reader.newReader _ (payload ++ [13]) rfl]
    rw [readLineAux_paste_printable payload hpr 7 _ _ [13] rfl]
    simp only [Reader.newReader]
    rw [hfold]
    rw [show (7 : Nat) = 6 + 1 from rfl,
      show ([13] : List Nat) = 13 :: [] from rfl,
      readLineAux_enter_step 6 _ _ []]
    simp
  · unfold Reader.ReadLine
    have hl2 : (pasteStart ++ (payload ++ (pasteEnd ++ [13]))).length + 1
        = (payload.length + 13) + 1 := by simp [pasteStart, pasteEnd]
    rw [hl2]
    rw [readLineAux_pasteStart_step (payload.length + 13) Reader.newReader _
      (payload ++ (pasteEnd ++ [13])) rfl]
    rw [readLineAux_paste_printable payload hpr 13 _ _ (pasteEnd ++ [13]) rfl]
    simp only [Reader.newReader]
    rw [hfold]
    rw [show (13 : Nat) = 12 + 1 from rfl,
      readLineAux_pasteEnd_step 12 _ _ [13] rfl]
    rw [show (12 : Nat) = 11 + 1 from rfl,
      show ([13] : List Nat) = 13 :: [] from rfl,
      readLineAux_enter_step 11 _ _ []]
    simp

/-- Witness for C7 at the payload "hi". -/
theorem readline_paste_indicator_witness :
    (Reader.ReadLine Reader.newReader (pasteStart ++ ([104, 105] ++ [13]))).2.2
        = Reader.ReadResult.line [104, 105] true ∧
    (Reader.ReadLine Reader.newReader
        (pasteStart ++ ([104, 105] ++ (pasteEnd ++ [13])))).2.2
        = Reader.ReadResult.line [104, 105] false :=
  readline_paste_indicator [104, 105] (by decide)

/-- Counterexample to C7 as stated: the line "hi" typed entirely inside a
paste burst that is closed with ESC[201~ before the Enter is accepted WITHOUT
the paste indicator, even though every content rune arrived between the
bracketed-paste markers. -/
theorem readline_pasted_line_no_indicator :
    (Reader.ReadLine Reader.newReader
        (pasteStart ++ [104, 105] ++ pasteEnd ++ [13])).2.2
      = Reader.ReadResult.line [104, 105] false := by decide

/-! ## C10: ReadPassword as ReadLine with NoHistory forced -/

/-- fetchPreviousHistory does nothing when NoHistory is set. -/
theorem fetchPreviousHistory_noHistory (st : Reader.RState) (h : st.NoHistory = true) :
    Reader.fetchPreviousHistory st = (st, false) := by
  unfold Reader.fetchPreviousHistory
  rw [if_pos h]

/-- fetchNextHistory does nothing when NoHistory is set. -/
theorem fetchNextHistory_noHistory (st : Reader.RState) (h : st.NoHistory = true) :
    Reader.fetchNextHistory st = st := by
  unfold Reader.fetchNextHistory
  rw [if_pos h]

set_option maxHeartbeats 1000000 in
/-- handleKey with NoHistory set keeps NoHistory set and never touches the
history ring: the Up/Down branches bail out inside fetchPreviousHistory and
fetchNextHistory, and every other branch edits only the input line. -/
theorem handleKey_noHistory_inv (st : Reader.RState) (key : Nat)
    (h : st.NoHistory = true) :
    (Reader.handleKey st key).1.NoHistory = true
      ∧ (Reader.handleKey st key).1.history = st.history := by
  unfold Reader.handleKey
  rw [fetchPreviousHistory_noHistory st h, fetchNextHistory_noHistory st h]
  by_cases h1 : st.pasteActive = true ∧ key ≠ Reader.keyEnter
  · rw [if_pos h1]; exact ⟨h, rfl⟩
  rw [if_neg h1]
  by_cases h2 : key = Reader.keyBackspace
  · rw [if_pos h2]; exact ⟨h, rfl⟩
  rw [if_neg h2]
  by_cases h3 : key = Reader.keyAltLeft
  · rw [if_pos h3]; exact ⟨h, rfl⟩
  rw [if_neg h3]
  by_cases h4 : key = Reader.keyAltRight
  · rw [if_pos h4]; exact ⟨h, rfl⟩
  rw [if_neg h4]
  by_cases h5 : key = Reader.keyLeft
  · rw [if_pos h5]; exact ⟨h, rfl⟩
  rw [if_neg h5]
  by_cases h6 : key = Reader.keyRight
  · rw [if_pos h6]; exact ⟨h, rfl⟩
  rw [if_neg h6]
  by_cases h7 : key = Reader.keyHome
  · rw [if_pos h7]; exact ⟨h, rfl⟩
  rw [if_neg h7]
  by_cases h8 : key = Reader.keyEnd
  · rw [if_pos h8]; exact ⟨h, rfl⟩
  rw [if_neg h8]
  by_cases h9 : key = Reader.keyUp
  · rw [if_pos h9]; exact ⟨h, rfl⟩
  rw [if_neg h9]
  by_cases h10 : key = Reader.keyDown
  · rw [if_pos h10]; exact ⟨h, rfl⟩
  rw [if_neg h10]
  by_cases h11 : key = Reader.keyEnter
  · rw [if_pos h11]; exact ⟨h, rfl⟩
  rw [if_neg h11]
  by_cases h12 : key = Reader.keyDeleteWord
  · rw [if_pos h12]; exact ⟨h, rfl⟩
  rw [if_neg h12]
  by_cases h13 : key = Reader.keyDeleteLine
  · rw [if_pos h13]; exact ⟨h, rfl⟩
  rw [if_neg h13]
  by_cases h14 : key = Reader.keyCtrlD
  · rw [if_pos h14]; exact ⟨h, rfl⟩
  rw [if_neg h14]
  by_cases h15 : key = Reader.keyCtrlU
  · rw [if_pos h15]; exact ⟨h, rfl⟩
  rw [if_neg h15]
  by_cases h16 : key = Reader.keyClearScreen
  · rw [if_pos h16]; exact ⟨h, rfl⟩
  rw [if_neg h16]
  by_cases h17 : Reader.isPrintable key = false
  · rw [if_pos h17]; exact ⟨h, rfl⟩
  rw [if_neg h17]
  by_cases h18 : (st.input.Text.length : Int) = st.MaxLineLength
  · rw [if_pos h18]; exact ⟨h, rfl⟩
  rw [if_neg h18]
  exact ⟨h, rfl⟩

/-- The ReadLine loop run from a state with NoHistory set keeps NoHistory set
and leaves the history ring untouched, for any fuel, flag and bytes. -/
theorem readLineAux_noHistory :
    ∀ (fuel : Nat) (st : Reader.RState) (lip : Bool) (rest : List Nat),
      st.NoHistory = true →
      (Reader.readLineAux fuel st lip rest).1.NoHistory = true
        ∧ (Reader.readLineAux fuel st lip rest).1.history = st.history := by
  intro fuel
  induction fuel with
  | zero => intro st lip rest h; exact ⟨h, rfl⟩
  | succ n ih =>
    intro st lip rest h
    have hh := handleKey_noHistory_inv st
      (Reader.bytesToKey rest st.pasteActive).1 h
    simp only [Reader.readLineAux]
    split_ifs <;>
      first
        | exact ⟨h, rfl⟩
        | exact ⟨hh.1, hh.2⟩
        | exact absurd hh.1 (by assumption)
        | exact ⟨(ih _ _ _ (by first | exact h | exact hh.1)).1,
            (ih _ _ _ (by first | exact h | exact hh.1)).2.trans
              (by first | rfl | exact hh.2)⟩

/-- C10: ReadPassword is ReadLine with NoHistory forced on for the duration of
the call: it produces the very output ReadLine produces from the
NoHistory-forced state, the accepted line is never added to the history ring,
and the reader's NoHistory flag is restored to its prior value. -/
theorem readPassword_refines (st : Reader.RState) (bytes : List Nat) :
    (Reader.ReadPassword st bytes).2
        = (Reader.ReadLine { st with NoHistory := true } bytes).2 ∧
    (Reader.ReadPassword st bytes).1.history = st.history ∧
    (Reader.ReadPassword st bytes).1.NoHistory = st.NoHistory ∧
    (Reader.ReadPassword st bytes).1
        = { (Reader.ReadLine { st with NoHistory := true } bytes).1 with
            NoHistory := st.NoHistory } := by
  refine ⟨rfl, ?_, rfl, rfl⟩
  have hr := readLineAux_noHistory (bytes.length + 1) { st with NoHistory := true }
    ({ st with NoHistory := true } : Reader.RState).pasteActive bytes rfl
  exact hr.2

end Terminal
